import Mathlib

/-!
# Verification of the edge-tts synthesis streaming engine

A shallow embedding, in Lean 4, of the core operations of the `edgetts-js`
repository: the text chunker (`src/utils.ts`), the binary/text frame
demultiplexer and streaming state machine (`src/communicate.ts`), the
Sec-MS-GEC token derivation (`src/drm.ts`), and the SRT subtitle composer
(`src/srt-composer.ts`).

Conventions used throughout:
* JavaScript `Uint8Array` values are embedded as `List Nat` (each element a
  byte value `< 256` in well-formed inputs).
* JavaScript strings are embedded as Lean `String` / `List Char` at the code
  points the code actually inspects (all comparisons in the embedded code are
  against ASCII literals, for which code-point equality coincides with
  UTF-16/UTF-8 equality).
* JavaScript numbers are embedded as `Nat`/`Int` where the code only ever
  holds integers, and as `ℚ` for the wall-clock arithmetic in `drm.ts`
  (the idealisation of IEEE doubles by exact arithmetic; noted at each use).
* Thrown exceptions become `Except`/sum results; the distinct exception
  classes of `src/exceptions.ts` become constructors of `JsError`.
-/

namespace EdgeTts

/-! ## Text chunker — `src/utils.ts`

`splitTextByByteLength` and its helpers operate on the UTF-8 byte encoding of
the input text; we embed them on `List Nat`.  Out-of-range reads
(`text[i]` with `i ≥ length`, which yields `undefined` in JS and compares
unequal to any byte) are embedded with the sentinel default `256`, which is
unequal to every byte value. -/

/-- `src/utils.ts` `findLastNewlineOrSpaceWithinLimit`, inner downward scans:
rightmost index `i < limit` with `text[i] = target`, scanning from `limit - 1`
downward. -/
def findLastByteBefore (text : List Nat) (target : Nat) : Nat → Option Nat
  | 0 => none
  | i + 1 => if text.getD i 256 = target then some i else findLastByteBefore text target i

/-- `src/utils.ts` lines 67–88: rightmost newline (`0x0a`) within the first
`limit` bytes, else rightmost space (`0x20`), else `-1`. -/
def findLastNewlineOrSpaceWithinLimit (text : List Nat) (limit : Nat) : Int :=
  match findLastByteBefore text 0x0a limit with
  | some i => (i : Int)
  | none =>
    match findLastByteBefore text 0x20 limit with
    | some i => (i : Int)
    | none => -1

/-- `src/utils.ts` lines 96–109 `findSafeUtf8SplitPoint`.  The JS body tries
`new TextDecoder().decode(textSegment.slice(0, splitAt))` starting from
`splitAt = textSegment.length` and decrements on a thrown error.  A
`TextDecoder` constructed with no options has `fatal: false`, and a non-fatal
decode never throws (malformed sequences are replaced by U+FFFD), so the very
first iteration returns; the function always returns `textSegment.length`
(also for the empty segment, where the loop body never runs). -/
def findSafeUtf8SplitPoint (textSegment : List Nat) : Nat :=
  textSegment.length

/-- Is byte `target` present at some index `lo ≤ i < hi`?  (The semicolon scan
of `adjustSplitPointForXmlEntity`, lines 134–140.) -/
def hasByteInRange (text : List Nat) (target lo hi : Nat) : Bool :=
  (List.range' lo (hi - lo)).any (fun i => text.getD i 256 == target)

lemma findLastByteBefore_lt {text : List Nat} {target : Nat} :
    ∀ {limit i : Nat}, findLastByteBefore text target limit = some i → i < limit := by
  intro limit
  induction limit with
  | zero => intro i h; simp [findLastByteBefore] at h
  | succ n ih =>
    intro i h
    rw [findLastByteBefore] at h
    split at h
    · cases h; omega
    · exact Nat.lt_succ_of_lt (ih h)

/-- `src/utils.ts` lines 117–150 `adjustSplitPointForXmlEntity`, the `while`
loop, on a non-negative split point: while the split point is positive, find
the rightmost `&` (`0x26`) strictly before it; stop if there is none, or if a
`;` (`0x3b`) occurs between that `&` and the split point; otherwise move the
split point to the `&` and repeat. -/
def adjustSplitLoop (text : List Nat) : Nat → Nat
  | 0 => 0
  | a + 1 =>
    match h : findLastByteBefore text 0x26 (a + 1) with
    | none => a + 1
    | some ampersandIndex =>
      if hasByteInRange text 0x3b (ampersandIndex + 1) (a + 1) then a + 1
      else adjustSplitLoop text ampersandIndex
  decreasing_by
    exact findLastByteBefore_lt h

/-- `src/utils.ts` lines 117–150 `adjustSplitPointForXmlEntity`.  On a
non-positive argument the `while` guard fails at once and the argument is
returned unchanged. -/
def adjustSplitPointForXmlEntity (text : List Nat) (splitAt : Int) : Int :=
  if splitAt ≤ 0 then splitAt else (adjustSplitLoop text splitAt.toNat : Int)

/-- Bytes treated as whitespace by `trimWhitespace` (`src/utils.ts` line 208):
space, tab, newline, carriage return. -/
def isWsByte (b : Nat) : Bool :=
  b == 0x20 || b == 0x09 || b == 0x0a || b == 0x0d

/-- `src/utils.ts` lines 204–217 `trimWhitespace`: drop leading and trailing
whitespace bytes. -/
def trimWhitespace (data : List Nat) : List Nat :=
  ((data.dropWhile isWsByte).reverse.dropWhile isWsByte).reverse

/-- The split point chosen by one iteration of the `while` loop of
`splitTextByByteLength` (`src/utils.ts` lines 166–175): last newline/space in
the first `byteLength` bytes; if none, `findSafeUtf8SplitPoint` applied — as
in the source — to the **whole** remaining buffer `data`, not to its first
`byteLength` bytes; then the XML-entity adjustment. -/
def chunkSplitPoint (data : List Nat) (byteLength : Nat) : Int :=
  let splitAt := findLastNewlineOrSpaceWithinLimit data byteLength
  let splitAt := if splitAt < 0 then (findSafeUtf8SplitPoint data : Int) else splitAt
  adjustSplitPointForXmlEntity data splitAt

/-- The `while` loop and final yield of `splitTextByByteLength`
(`src/utils.ts` lines 165–199).  The generator's yields are collected into a
list; a thrown error discards the whole run, which is faithful for the claims
considered (the error branch requires `splitAt < 0`). -/
def splitLoop (data : List Nat) (byteLength : Nat) : Except String (List (List Nat)) :=
  if h : data.length > byteLength then
    let splitAt := chunkSplitPoint data byteLength
    if splitAt < 0 then
      .error "Maximum byte length is too small or invalid text structure near & or invalid UTF-8"
    else
      let sA := splitAt.toNat
      let trimmedChunk := trimWhitespace (data.take sA)
      match splitLoop (data.drop (if sA > 0 then sA else 1)) byteLength with
      | .error e => .error e
      | .ok chunks => .ok (if trimmedChunk.length > 0 then trimmedChunk :: chunks else chunks)
  else
    let remainingChunk := trimWhitespace data
    .ok (if remainingChunk.length > 0 then [remainingChunk] else [])
  termination_by data.length
  decreasing_by
    simp only [List.length_drop]
    split <;> omega

/-- `src/utils.ts` lines 158–199 `splitTextByByteLength`, on the UTF-8 bytes
of the input text.  `byteLength` is embedded as `Nat`; the guard
`byteLength <= 0` becomes `byteLength = 0`. -/
def splitTextByByteLength (data : List Nat) (byteLength : Nat) : Except String (List (List Nat)) :=
  if byteLength = 0 then .error "byte_length must be greater than 0"
  else splitLoop data byteLength

/-- UTF-8 encoding of one code point (RFC 3629).  Lean `Char` carries a
Unicode scalar value, so this matches `TextEncoder` (which never sees lone
surrogates in a well-formed string). -/
def utf8EncodeChar (c : Char) : List Nat :=
  let n := c.toNat
  if n < 0x80 then [n]
  else if n < 0x800 then [0xC0 + n / 64, 0x80 + n % 64]
  else if n < 0x10000 then [0xE0 + n / 4096, 0x80 + n / 64 % 64, 0x80 + n % 64]
  else [0xF0 + n / 262144, 0x80 + n / 4096 % 64, 0x80 + n / 64 % 64, 0x80 + n % 64]

/-- `new TextEncoder().encode` on a string: its UTF-8 bytes. -/
def utf8Bytes (s : String) : List Nat :=
  (s.data.map utf8EncodeChar).flatten

/-! ## Protocol frame parsing — `getHeadersAndData` and the binary branch

`getHeadersAndData` (`src/utils.ts` lines 13–30) decodes the header prefix and
splits it into lines at `\r\n`; each line with a `:` becomes a binding, later
bindings to the same key overwriting earlier ones.  We stay at the byte level:
every comparison the embedded code performs on decoded header strings is
against an ASCII literal, and a non-fatally decoded byte list equals an ASCII
string exactly when the bytes are that string's ASCII bytes. -/

/-- `headerText.split('\r\n')`: split a byte list at each `\r\n` (13, 10),
left to right, non-overlapping. -/
def splitOnCrlf : List Nat → List (List Nat)
  | [] => [[]]
  | 13 :: 10 :: rest => [] :: splitOnCrlf rest
  | b :: rest =>
    match splitOnCrlf rest with
    | [] => [[b]]
    | line :: lines => (b :: line) :: lines

/-- `line.indexOf(':')` plus the two `slice`s (`src/utils.ts` lines 21–24):
split a line at its first colon (58), or `none` if it has no colon. -/
def splitAtFirstColon : List Nat → Option (List Nat × List Nat)
  | [] => none
  | b :: rest =>
    if b = 58 then some ([], rest)
    else
      match splitAtFirstColon rest with
      | none => none
      | some (key, value) => some (b :: key, value)

/-- The header record built by the loop of `getHeadersAndData` (lines 20–27),
as an ordered binding list. -/
def parseHeaderFields (headerBytes : List Nat) : List (List Nat × List Nat) :=
  (splitOnCrlf headerBytes).filterMap splitAtFirstColon

/-- `headers[key]`: JS object lookup — the last binding for `key` wins,
`undefined` (here `none`) if there is none. -/
def lookupHeader (headers : List (List Nat × List Nat)) (key : List Nat) : Option (List Nat) :=
  ((headers.reverse).find? (fun p => p.1 == key)).map (fun p => p.2)

/-- `src/utils.ts` lines 13–30 `getHeadersAndData`. -/
def getHeadersAndData (data : List Nat) (headerLength : Nat) :
    List (List Nat × List Nat) × List Nat :=
  (parseHeaderFields (data.take headerLength), data.drop (headerLength + 2))

/-- What the binary branch of `ws.onmessage` does with one frame. -/
inductive BinaryOutcome
  | queued (audioData : List Nat)
  | ignored
  | rejected (message : String)
  deriving DecidableEq

/-- `src/communicate.ts` lines 377–425: the decision taken for a binary frame
once headers and payload are parsed.  The branch order and conditions follow
the source: path check, `contentType !== 'audio/mpeg' && contentType !==
undefined`, the undefined-content-type cases, the empty-payload case, then
acceptance. -/
def binaryFrameDecision (headers : List (List Nat × List Nat)) (audioData : List Nat) :
    BinaryOutcome :=
  if lookupHeader headers (utf8Bytes "Path") ≠ some (utf8Bytes "audio") then
    .rejected "Received binary message, but the path is not audio."
  else
    let contentType := lookupHeader headers (utf8Bytes "Content-Type")
    if contentType ≠ some (utf8Bytes "audio/mpeg") ∧ contentType ≠ none then
      .rejected "Received binary message, but with an unexpected Content-Type."
    else if contentType = none then
      if audioData.length = 0 then .ignored
      else .rejected "Received binary message with no Content-Type, but with data."
    else if audioData.length = 0 then
      .rejected "Received binary message, but it is missing the audio data."
    else
      .queued audioData

/-- `src/communicate.ts` lines 347–426: the whole binary branch of
`ws.onmessage`, from the raw frame bytes. -/
def handleBinaryMessage (dataArray : List Nat) : BinaryOutcome :=
  if dataArray.length < 2 then
    .rejected "We received a binary message, but it is missing the header length."
  else
    let headerLength := (dataArray.getD 0 0) <<< 8 ||| dataArray.getD 1 0
    if headerLength > dataArray.length then
      .rejected "The header length is greater than the length of the data."
    else
      let hd := getHeadersAndData dataArray headerLength
      binaryFrameDecision hd.1 hd.2

/-! ## String replacement and XML unescaping — `src/utils.ts` lines 289–296

`String.prototype.replace` scans left to right (for a `/g` pattern:
non-overlapping, replacements not rescanned) and expands the ECMA-262
`GetSubstitution` `$`-escapes in the replacement string before inserting it.
Both are modelled: each replacement pass threads the characters already
scanned (`seen`, in reverse) so the expansion can see the text before the
match. -/

/-- ECMA-262 `GetSubstitution` for a search pattern with no capture groups:
a doubled `$` yields one `$`; `$&` yields the matched text; `$` followed by a
backquote (0x60) yields the portion of the string before the match; `$`
followed by a quote (0x27) yields the portion after it; any other `$`
sequence is left literal (with zero capture groups, `$1`…`$9` and `$<` have
no referent and stay literal). -/
def jsSubstitute (matched before after : List Char) : List Char → List Char
  | [] => []
  | [c] => [c]
  | c :: d :: rest2 =>
    if c = '\x24' then
      if d = '\x24' then c :: jsSubstitute matched before after rest2
      else if d = '&' then matched ++ jsSubstitute matched before after rest2
      else if d = '\x60' then before ++ jsSubstitute matched before after rest2
      else if d = '\x27' then after ++ jsSubstitute matched before after rest2
      else c :: jsSubstitute matched before after (d :: rest2)
    else c :: jsSubstitute matched before after (d :: rest2)
  termination_by l => l.length
  decreasing_by all_goals (simp only [List.length_cons]; omega)

/-- One global replacement pass of `pat` by `repl` on a character list, with
`GetSubstitution` expansion of `repl` at each match (`seen` is the already
scanned prefix of the original string, in reverse).  (The `pat ≠ []` guard
only rules out the empty pattern, which the embedded code never uses.) -/
def replaceAllAux (pat repl : List Char) (seen : List Char) : List Char → List Char
  | [] => []
  | c :: rest =>
    if pat ≠ [] ∧ pat.isPrefixOf (c :: rest) then
      jsSubstitute pat seen.reverse ((c :: rest).drop pat.length) repl
        ++ replaceAllAux pat repl (((c :: rest).take pat.length).reverse ++ seen)
          ((c :: rest).drop pat.length)
    else
      c :: replaceAllAux pat repl (c :: seen) rest
  termination_by l => l.length
  decreasing_by
    · rename_i hif
      simp only [List.length_drop, List.length_cons]
      rcases hif with ⟨hne, -⟩
      cases pat with
      | nil => exact absurd rfl hne
      | cons p ps => simp only [List.length_cons]; omega
    · simp only [List.length_cons]; omega

/-- `String.prototype.replace` with a `/g` pattern. -/
def replaceAllList (pat repl : List Char) (l : List Char) : List Char :=
  replaceAllAux pat repl [] l

/-- First-occurrence replacement of `pat` by `repl` with `GetSubstitution`
expansion of `repl` at the match. -/
def replaceFirstAux (pat repl : List Char) (seen : List Char) : List Char → List Char
  | [] => []
  | c :: rest =>
    if pat.isPrefixOf (c :: rest) then
      jsSubstitute pat seen.reverse ((c :: rest).drop pat.length) repl
        ++ (c :: rest).drop pat.length
    else c :: replaceFirstAux pat repl (c :: seen) rest

/-- `String.prototype.replace` with a plain string pattern. -/
def replaceFirstList (pat repl : List Char) (l : List Char) : List Char :=
  replaceFirstAux pat repl [] l

/-- `src/utils.ts` lines 289–296 `unescapeXml`: five sequential global
replacements, in source order. -/
def unescapeXml (s : String) : String :=
  let l := replaceAllList "&apos;".data "\x27".data s.data
  let l := replaceAllList "&quot;".data "\x22".data l
  let l := replaceAllList "&gt;".data ">".data l
  let l := replaceAllList "&lt;".data "<".data l
  let l := replaceAllList "&amp;".data "&".data l
  String.mk l

/-! ## Streaming state machine — `src/communicate.ts`

The exception classes of `src/exceptions.ts`, plus plain `Error`
(`genericError`). -/

inductive JsError
  | unknownResponse (message : String)
  | unexpectedResponse (message : String)
  | noAudioReceived (message : String)
  | webSocketError (message : String)
  | genericError (message : String)
  deriving DecidableEq

/-- One record of an `audio.metadata` frame's JSON `Metadata` list, at the
fields `parseMetadata` reads: `Type`, `Data.Offset`, `Data.Duration`,
`Data.text.Text`.  (JSON parsing itself is abstracted.) -/
structure MetadataRecord where
  type : String
  offset : Int
  duration : Int
  text : String
  deriving DecidableEq

/-- `TTSChunkMetadata` of `src/types.ts` lines 42–47. -/
structure TTSChunkMetadata where
  type : String
  offset : Int
  duration : Int
  text : String
  deriving DecidableEq

/-- `CommunicateState` of `src/types.ts` lines 59–64. -/
structure CommunicateState where
  partialText : List Nat
  offsetCompensation : Int
  lastDurationOffset : Int
  streamWasCalled : Bool
  deriving DecidableEq

/-- The state built by the `Communicate` constructor
(`src/communicate.ts` lines 204–209). -/
def initialCommunicateState : CommunicateState :=
  { partialText := [], offsetCompensation := 0, lastDurationOffset := 0, streamWasCalled := false }

/-- `src/communicate.ts` lines 215–237 `parseMetadata`, on the parsed
`Metadata` list, given the current `offsetCompensation`: the first record of
type `WordBoundary`/`SentenceBoundary` is returned with its offset
compensated; `SessionEnd` records are skipped; any other type raises
`UnknownResponse`; exhaustion raises `UnexpectedResponse`. -/
def parseMetadata (offsetCompensation : Int) :
    List MetadataRecord → Except JsError TTSChunkMetadata
  | [] => .error (.unexpectedResponse "No WordBoundary metadata found")
  | metaObj :: rest =>
    if metaObj.type = "WordBoundary" ∨ metaObj.type = "SentenceBoundary" then
      .ok { type := metaObj.type
            offset := metaObj.offset + offsetCompensation
            duration := metaObj.duration
            text := unescapeXml metaObj.text }
    else if metaObj.type = "SessionEnd" then
      parseMetadata offsetCompensation rest
    else
      .error (.unknownResponse ("Unknown metadata type: " ++ metaObj.type))

/-- A received text frame, classified by its `Path` header
(`src/communicate.ts` lines 322–346). -/
inductive TextFrame
  | audioMetadata (records : List MetadataRecord)
  | turnEnd
  | turnStart
  | response
  | other (path : String)
  deriving DecidableEq

/-- `src/communicate.ts` lines 322–346: the text branch of `ws.onmessage`.
On `audio.metadata`, parse and queue the metadata and update
`lastDurationOffset` to its `offset + duration` (line 330).  On `turn.end`,
set `offsetCompensation` to `lastDurationOffset` and add the fixed
`8_750_000` padding (lines 333–336).  `response` and `turn.start` are
ignored; any other path raises `UnknownResponse`. -/
def processTextFrame (s : CommunicateState) :
    TextFrame → Except JsError (CommunicateState × Option TTSChunkMetadata)
  | .audioMetadata records =>
    match parseMetadata s.offsetCompensation records with
    | .error e => .error e
    | .ok parsedMetadata =>
      .ok ({ s with lastDurationOffset := parsedMetadata.offset + parsedMetadata.duration },
        some parsedMetadata)
  | .turnEnd =>
    .ok ({ s with offsetCompensation := s.lastDurationOffset + 8750000 }, none)
  | .turnStart => .ok (s, none)
  | .response => .ok (s, none)
  | .other path => .error (.unknownResponse ("Unknown path received: " ++ path))

/-- Process a sequence of received text frames in arrival order, threading the
state; the first raised error aborts the stream
(`src/communicate.ts` lines 427–431, 491–501). -/
def processTextFrames (s : CommunicateState) : List TextFrame → Except JsError CommunicateState
  | [] => .ok s
  | f :: fs =>
    match processTextFrame s f with
    | .error e => .error e
    | .ok (s', _) => processTextFrames s' fs

/-- The frames of a trace report non-negative raw offsets and durations. -/
def frameNonneg : TextFrame → Prop
  | .audioMetadata records => ∀ r ∈ records, 0 ≤ r.offset ∧ 0 ≤ r.duration
  | _ => True

instance : DecidablePred frameNonneg := fun f => by
  cases f <;> simp only [frameNonneg] <;> infer_instance

/-- An observable network action of `streamInternal`. -/
inductive NetAction
  | openConnection (partialText : List Nat)
  deriving DecidableEq

/-- `src/communicate.ts` lines 481–504 `stream`.  The per-chunk
`streamInternal` sessions perform real socket I/O; each is abstracted to the
`openConnection` action it begins with (line 251), performed on the chunk the
loop stored in `state.partialText` (line 490).  The claim-relevant structure
is preserved exactly: the single-use guard (lines 483–486) runs before any
chunk is consumed and before any connection is opened, and a guarded call
terminates with a plain `Error('stream can only be called once.')` — the
condition the specification's taxonomy names `AlreadyStreamed` — producing no
action at all. -/
def streamCall (s : CommunicateState) (texts : List (List Nat)) :
    Except JsError CommunicateState × List NetAction :=
  if s.streamWasCalled then
    (.error (.genericError "stream can only be called once."), [])
  else
    (.ok { s with streamWasCalled := true,
                  partialText := texts.getLast?.getD s.partialText },
     texts.map NetAction.openConnection)

/-! ## SRT composer — `src/srt-composer.ts`

Strings are embedded at the code-point level; every character class the code
tests (`\n`, whitespace, `{`…`}` template slots) is surrogate-free, so
code-point and UTF-16 views agree. -/

/-- The code points ECMAScript `String.prototype.trim` removes (WhiteSpace ∪
LineTerminator: tab, LF, VT, FF, CR, space, NBSP, the Zs category, LS, PS,
ZWNBSP). -/
def jsWhitespaceCodes : List Nat :=
  [9, 10, 11, 12, 13, 32, 0xA0, 0x1680, 0x2000, 0x2001, 0x2002, 0x2003, 0x2004, 0x2005,
   0x2006, 0x2007, 0x2008, 0x2009, 0x200A, 0x2028, 0x2029, 0x202F, 0x205F, 0x3000, 0xFEFF]

def isJsWhitespace (c : Char) : Bool :=
  jsWhitespaceCodes.contains c.toNat

/-- `String.prototype.trim` on a character list. -/
def jsTrimList (l : List Char) : List Char :=
  ((l.dropWhile isJsWhitespace).reverse.dropWhile isJsWhitespace).reverse

/-- `String.prototype.trim`. -/
def jsTrim (s : String) : String :=
  String.mk (jsTrimList s.data)

/-- `MULTI_WS_REGEX.test(content)` (`src/srt-composer.ts` line 17): does
`/\n\n+/` match, i.e. are there two adjacent newlines?  (The shared regex
object's `lastIndex` is `0` at every entry: a failed `test` and a completed
global `replace` both reset it, and a successful `test` is always followed by
a global `replace`.) -/
def containsDoubleNewline : List Char → Bool
  | c1 :: c2 :: rest => (c1 == '\n' && c2 == '\n') || containsDoubleNewline (c2 :: rest)
  | _ => false

/-- `content.replace(MULTI_WS_REGEX, '\n')`: each maximal run of two or more
newlines (the greedy, leftmost matches of `/\n\n+/g`) becomes a single
newline. -/
def collapseNewlineRuns : List Char → List Char
  | [] => []
  | c :: rest =>
    if c == '\n' ∧ rest.head? == some '\n' then collapseNewlineRuns rest
    else c :: collapseNewlineRuns rest

/-- `src/srt-composer.ts` lines 112–121 `makeLegalContent`: the fast path
returns the content unchanged when it is truthy (non-empty), does not start
with `'\n'`, and `/\n\n+/` does not match; otherwise
`content.trim().replace(MULTI_WS_REGEX, '\n')`. -/
def makeLegalContent (content : String) : String :=
  if content ≠ "" ∧ content.data.head? ≠ some '\n' ∧ containsDoubleNewline content.data = false
  then content
  else String.mk (collapseNewlineRuns (jsTrimList content.data))

/-- Base-`base` digits of `n`, least significant first, by fuel-bounded
structural recursion (`fuel ≥ n` always suffices, as each step divides by
`base ≥ 10 > 1`). -/
def digitsRevFuel (base : Nat) : Nat → Nat → List Nat
  | 0, n => [n]
  | fuel + 1, n => if n < base then [n] else n % base :: digitsRevFuel base fuel (n / base)

/-- Decimal digits of `n`, least significant first. -/
def natDigitsRev (n : Nat) : List Nat :=
  digitsRevFuel 10 n n

/-- The value of a little-endian decimal digit list (used to invert
`natDigitsRev`). -/
def digitsVal : List Nat → Nat
  | [] => 0
  | d :: ds => d + 10 * digitsVal ds

/-- Decimal rendering of a natural number (JS `Number.prototype.toString` on a
non-negative integer value). -/
def natToDecString (n : Nat) : String :=
  String.mk ((natDigitsRev n).reverse.map (fun d => Char.ofNat (48 + d)))

/-- JS `String(n)` / template interpolation of an integer-valued number. -/
def intToDecString (n : Int) : String :=
  if n < 0 then String.mk ('-' :: (natToDecString n.natAbs).data)
  else natToDecString n.natAbs

/-- `String.prototype.padStart(targetLength, pad)` with a one-character pad
string. -/
def jsPadStart (s : String) (targetLength : Nat) (pad : Char) : String :=
  String.mk (List.replicate (targetLength - s.data.length) pad ++ s.data)

/-- `src/srt-composer.ts` lines 128–137 `timedeltaToSrtTimestamp`.
`Math.floor` on a quotient of integer-valued numbers is `Int.fdiv`; JS `%`
(sign of the dividend) is `Int.tmod`. -/
def timedeltaToSrtTimestamp (milliseconds : Int) : String :=
  let totalSeconds := Int.fdiv milliseconds 1000
  let hrs := Int.fdiv totalSeconds 3600
  let secsRemainder := Int.tmod totalSeconds 3600
  let mins := Int.fdiv secsRemainder 60
  let secs := Int.tmod secsRemainder 60
  let msecs := Int.tmod milliseconds 1000
  jsPadStart (intToDecString hrs) 2 '0' ++ ":" ++ jsPadStart (intToDecString mins) 2 '0'
    ++ ":" ++ jsPadStart (intToDecString secs) 2 '0' ++ ","
    ++ jsPadStart (intToDecString msecs) 3 '0'

/-- `Subtitle` / `SubtitleClass` (`src/types.ts` lines 66–71,
`src/srt-composer.ts` lines 36–47).  The `end` field is named `endTime`
(`end` is reserved in Lean). -/
structure Subtitle where
  index : Option Int
  start : Int
  endTime : Int
  content : String
  deriving DecidableEq

/-- `src/srt-composer.ts` lines 98–102 `compareTo`. -/
def compareTo (a b : Subtitle) : Int :=
  if a.start ≠ b.start then a.start - b.start
  else if a.endTime ≠ b.endTime then a.endTime - b.endTime
  else a.index.getD 0 - b.index.getD 0

/-- Stable insertion used to embed `Array.prototype.sort`: insert `x` after
every element `y` with `le y x`. -/
def insertStable {α : Type} (le : α → α → Bool) (x : α) : List α → List α
  | [] => [x]
  | y :: ys => if le y x then y :: insertStable le x ys else x :: y :: ys

/-- `Array.prototype.sort(comparator)` for a consistent comparator: a stable
sort ascending in the comparator (ECMAScript requires sort stability).
Elements are inserted left to right, each after its equals. -/
def jsSortStable {α : Type} (le : α → α → Bool) (l : List α) : List α :=
  l.foldl (fun acc x => insertStable le x acc) []

/-- `SUBTITLE_SKIP_CONDITIONS` / `shouldSkipSub` (`src/srt-composer.ts` lines
20–24, 155–161): skip when the trimmed content is empty, the start time is
negative, or start ≥ end. -/
def shouldSkip (sub : Subtitle) : Bool :=
  jsTrim sub.content == "" || sub.start < 0 || sub.endTime ≤ sub.start

/-- The `if (!inPlace)` branch of `sortAndReindex` (lines 194–206): a copy of
the subtitle is built and its fields are assigned **back onto the original
object**; the yielded and reindexed object is still the input object. -/
def copyBackFields (subtitle : Subtitle) : Subtitle :=
  let copy : Subtitle := ⟨subtitle.index, subtitle.start, subtitle.endTime, subtitle.content⟩
  { subtitle with index := copy.index, start := copy.start, endTime := copy.endTime,
                  content := copy.content }

/-- The `for` loop of `sortAndReindex` (`src/srt-composer.ts` lines 191–227)
over the sorted subtitles, each tagged with its position in the input
collection.  Returns the yielded subtitles in order, and — since the loop
mutates the input objects themselves — the final value of every input object,
tagged with its original position. -/
def sortAndReindexLoop (inPlace skip : Bool) :
    List (Nat × Subtitle) → Int → Int → List Subtitle × List (Nat × Subtitle)
  | [], _, _ => ([], [])
  | (tag, sub) :: rest, subNum, skippedSubs =>
    let subtitle := if inPlace then sub else copyBackFields sub
    if skip ∧ shouldSkip subtitle then
      let r := sortAndReindexLoop inPlace skip rest (subNum + 1) (skippedSubs + 1)
      (r.1, (tag, subtitle) :: r.2)
    else
      let subtitle' := { subtitle with index := some (subNum - skippedSubs) }
      let r := sortAndReindexLoop inPlace skip rest (subNum + 1) skippedSubs
      (subtitle' :: r.1, (tag, subtitle') :: r.2)

/-- `src/srt-composer.ts` lines 182–228 `sortAndReindex`.  The result pair is
(subtitles yielded by the generator, final contents of the input objects
tagged by original position). -/
def sortAndReindex (subtitles : List Subtitle) (startIndex : Int) (inPlace skip : Bool) :
    List Subtitle × List (Nat × Subtitle) :=
  let sorted := jsSortStable (fun a b => decide (compareTo a.2 b.2 ≤ 0)) subtitles.enum
  sortAndReindexLoop inPlace skip sorted startIndex 0

/-- The SRT block template of `toSrt` (`src/srt-composer.ts` line 60),
`'{idx}{eol}{start} --> {end}{eol}{content}{eol}{eol}'`. -/
def srtTemplate : List Char :=
  "\x7bidx\x7d\x7beol\x7d\x7bstart\x7d --> \x7bend\x7d\x7beol\x7d\x7bcontent\x7d\x7beol\x7d\x7beol\x7d".data

/-- `src/srt-composer.ts` lines 54–67 `SubtitleClass.toSrt`: normalize the
content, substitute `{idx}` (first occurrence), `{eol}` (all occurrences),
`{start}`, `{end}`, `{content}` (first occurrences), in that order.  `eol =
none` embeds the JS `null` default. -/
def toSrt (sub : Subtitle) (eol : Option String) : String :=
  let outputContent := makeLegalContent sub.content
  let lineEnding := eol.getD "\n"
  let finalContent :=
    if eol ≠ some "\n" then String.mk (replaceAllList ['\n'] lineEnding.data outputContent.data)
    else outputContent
  let step1 := replaceFirstList "\x7bidx\x7d".data (intToDecString (sub.index.getD 0)).data srtTemplate
  let step2 := replaceAllList "\x7beol\x7d".data lineEnding.data step1
  let step3 := replaceFirstList "\x7bstart\x7d".data (timedeltaToSrtTimestamp sub.start).data step2
  let step4 := replaceFirstList "\x7bend\x7d".data (timedeltaToSrtTimestamp sub.endTime).data step3
  let step5 := replaceFirstList "\x7bcontent\x7d".data finalContent.data step4
  String.mk step5

/-- `src/srt-composer.ts` lines 239–258 `compose`: reindex (optionally), then
concatenate the SRT blocks with no extra separator. -/
def compose (subtitles : List Subtitle) (reindex : Bool) (startIndex : Int)
    (eol : Option String) (inPlace : Bool) : String :=
  let subIterable := if reindex then (sortAndReindex subtitles startIndex inPlace true).1
                     else subtitles
  String.join (subIterable.map (fun sub => toSrt sub eol))

/-! ## DRM token derivation — `src/drm.ts`

Wall-clock values (`Date.now() / 1000`, the accumulated skew, the tick
arithmetic of `generateSecMsGec`) are IEEE doubles in JS; they are embedded
as exact rationals.  (For the 300-second bucketing this is an idealisation of
the double rounding; within one bucket the double computation is bitwise
identical across calls, and distinct buckets are ≥ 3·10⁹ ticks apart, far
above the rounding error at that magnitude, so the bucketing behaviour of the
idealisation and of doubles agree.) -/

/-- JS truncation toward zero (the integer part used by JS `%`). -/
def jsTrunc (q : ℚ) : ℤ :=
  if 0 ≤ q then ⌊q⌋ else ⌈q⌉

/-- JS `%` on numbers: `x - m * trunc(x / m)` (sign of the dividend). -/
def jsFmod (x m : ℚ) : ℚ :=
  x - m * (jsTrunc (x / m) : ℚ)

/-- `src/constants.ts` line 6. -/
def TRUSTED_CLIENT_TOKEN : String := "6A5AA1D4EAFF4E9FB37E23D68491D6F4"

/-- `src/drm.ts` line 9: seconds between the Windows and Unix epochs. -/
def WIN_EPOCH : ℚ := 11644473600

/-- `src/drm.ts` line 10. -/
def S_TO_NS : ℚ := 1000000000

/-- `src/drm.ts` lines 30–32 `getUnixTimestamp`, as a function of `Date.now()`
(milliseconds) and the accumulated `clockSkewSeconds`. -/
def getUnixTimestamp (nowMs clockSkewSeconds : ℚ) : ℚ :=
  nowMs / 1000 + clockSkewSeconds

/-- `src/drm.ts` lines 82–94: the string passed to SHA-256 by
`generateSecMsGec` — the skew-corrected time, shifted to the Windows epoch,
truncated down to the nearest 300 s, scaled to 100-ns ticks, `Math.floor`ed,
rendered in decimal and concatenated with the trusted client token. -/
def secMsGecHashInput (nowMs clockSkewSeconds : ℚ) : String :=
  let ticks0 := getUnixTimestamp nowMs clockSkewSeconds
  let ticks1 := ticks0 + WIN_EPOCH
  let ticks2 := ticks1 - jsFmod ticks1 300
  let ticks3 := ticks2 * (S_TO_NS / 100)
  intToDecString ⌊ticks3⌋ ++ TRUSTED_CLIENT_TOKEN

/-! ### SHA-256 (FIPS 180-4), the semantics of
`crypto.subtle.digest('SHA-256', …)` -/

/-- Truncation to a 32-bit word. -/
def w32 (n : Nat) : Nat := n % 4294967296

def add32 (a b : Nat) : Nat := w32 (a + b)

def rotr32 (x n : Nat) : Nat := w32 ((x >>> n) ||| (x <<< (32 - n)))

def bigSigma0 (x : Nat) : Nat := rotr32 x 2 ^^^ rotr32 x 13 ^^^ rotr32 x 22

def bigSigma1 (x : Nat) : Nat := rotr32 x 6 ^^^ rotr32 x 11 ^^^ rotr32 x 25

def smallSigma0 (x : Nat) : Nat := rotr32 x 7 ^^^ rotr32 x 18 ^^^ (x >>> 3)

def smallSigma1 (x : Nat) : Nat := rotr32 x 17 ^^^ rotr32 x 19 ^^^ (x >>> 10)

def chFn (x y z : Nat) : Nat := (x &&& y) ^^^ ((x ^^^ 0xFFFFFFFF) &&& z)

def majFn (x y z : Nat) : Nat := (x &&& y) ^^^ (x &&& z) ^^^ (y &&& z)

def sha256K : List Nat :=
  [1116352408, 1899447441, 3049323471, 3921009573, 961987163, 1508970993,
   2453635748, 2870763221, 3624381080, 310598401, 607225278, 1426881987,
   1925078388, 2162078206, 2614888103, 3248222580, 3835390401, 4022224774,
   264347078, 604807628, 770255983, 1249150122, 1555081692, 1996064986,
   2554220882, 2821834349, 2952996808, 3210313671, 3336571891, 3584528711,
   113926993, 338241895, 666307205, 773529912, 1294757372, 1396182291,
   1695183700, 1986661051, 2177026350, 2456956037, 2730485921, 2820302411,
   3259730800, 3345764771, 3516065817, 3600352804, 4094571909, 275423344,
   430227734, 506948616, 659060556, 883997877, 958139571, 1322822218,
   1537002063, 1747873779, 1955562222, 2024104815, 2227730452, 2361852424,
   2428436474, 2756734187, 3204031479, 3329325298]

/-- The eight working variables of one compression round. -/
structure RoundState where
  a : Nat
  b : Nat
  c : Nat
  d : Nat
  e : Nat
  f : Nat
  g : Nat
  h : Nat

/-- The hash value between blocks. -/
structure Sha256State where
  h0 : Nat
  h1 : Nat
  h2 : Nat
  h3 : Nat
  h4 : Nat
  h5 : Nat
  h6 : Nat
  h7 : Nat

def sha256InitState : Sha256State :=
  ⟨1779033703, 3144134277, 1013904242, 2773480762,
   1359893119, 2600822924, 528734635, 1541459225⟩

def beWord (b0 b1 b2 b3 : Nat) : Nat :=
  (b0 <<< 24) ||| (b1 <<< 16) ||| (b2 <<< 8) ||| b3

/-- Message schedule `W₀ … W₆₃` of one 64-byte block. -/
def sha256Schedule (block : List Nat) : List Nat :=
  let w16 := (List.range 16).map (fun i =>
    beWord (block.getD (4 * i) 0) (block.getD (4 * i + 1) 0) (block.getD (4 * i + 2) 0)
      (block.getD (4 * i + 3) 0))
  (List.range 48).foldl (fun w _ =>
    w ++ [add32 (add32 (smallSigma1 (w.getD (w.length - 2) 0)) (w.getD (w.length - 7) 0))
            (add32 (smallSigma0 (w.getD (w.length - 15) 0)) (w.getD (w.length - 16) 0))]) w16

def sha256Round (s : RoundState) (kw : Nat × Nat) : RoundState :=
  let t1 := add32 s.h (add32 (add32 (bigSigma1 s.e) (chFn s.e s.f s.g)) (add32 kw.1 kw.2))
  let t2 := add32 (bigSigma0 s.a) (majFn s.a s.b s.c)
  ⟨add32 t1 t2, s.a, s.b, s.c, add32 s.d t1, s.e, s.f, s.g⟩

def sha256Compress (st : Sha256State) (block : List Nat) : Sha256State :=
  let r := ((sha256K.zip (sha256Schedule block)).foldl sha256Round
    ⟨st.h0, st.h1, st.h2, st.h3, st.h4, st.h5, st.h6, st.h7⟩)
  ⟨add32 st.h0 r.a, add32 st.h1 r.b, add32 st.h2 r.c, add32 st.h3 r.d, add32 st.h4 r.e,
   add32 st.h5 r.f, add32 st.h6 r.g, add32 st.h7 r.h⟩

/-- Merkle–Damgård padding: `0x80`, zeros to 56 mod 64, 8-byte big-endian bit
length. -/
def sha256Pad (msg : List Nat) : List Nat :=
  let len := msg.length
  let zeros := (64 - (len + 9) % 64) % 64
  let bitLen := len * 8
  msg ++ [0x80] ++ List.replicate zeros 0 ++
    [bitLen / 2 ^ 56 % 256, bitLen / 2 ^ 48 % 256, bitLen / 2 ^ 40 % 256,
     bitLen / 2 ^ 32 % 256, bitLen / 2 ^ 24 % 256, bitLen / 2 ^ 16 % 256,
     bitLen / 2 ^ 8 % 256, bitLen % 256]

def sha256Blocks (st : Sha256State) : List Nat → Sha256State
  | [] => st
  | b :: rest =>
    sha256Blocks (sha256Compress st ((b :: rest).take 64)) ((b :: rest).drop 64)
  termination_by bytes => bytes.length
  decreasing_by simp only [List.length_drop, List.length_cons]; omega

/-- Big-endian bytes of a 32-bit word. -/
def wordBytes (w : Nat) : List Nat :=
  [w / 2 ^ 24 % 256, w / 2 ^ 16 % 256, w / 2 ^ 8 % 256, w % 256]

/-- SHA-256 digest (32 bytes) of a byte sequence. -/
def sha256 (msg : List Nat) : List Nat :=
  let st := sha256Blocks sha256InitState (sha256Pad msg)
  wordBytes st.h0 ++ wordBytes st.h1 ++ wordBytes st.h2 ++ wordBytes st.h3 ++ wordBytes st.h4
    ++ wordBytes st.h5 ++ wordBytes st.h6 ++ wordBytes st.h7

/-- Hexadecimal digits of `n`, least significant first. -/
def natHexDigitsRev (n : Nat) : List Nat :=
  digitsRevFuel 16 n n

def hexDigitCharLower (d : Nat) : Char :=
  if d < 10 then Char.ofNat (48 + d) else Char.ofNat (87 + d)

/-- `b.toString(16)` (lowercase hex, no padding). -/
def natToHexStringLower (n : Nat) : String :=
  String.mk ((natHexDigitsRev n).reverse.map hexDigitCharLower)

/-- `String.prototype.toUpperCase` restricted to ASCII, which is all the hex
digits need. -/
def jsToUpperCase (s : String) : String :=
  String.mk (s.data.map (fun c => if 'a' ≤ c ∧ c ≤ 'z' then Char.ofNat (c.toNat - 32) else c))

/-- `src/drm.ts` lines 100–102: `map(b => b.toString(16).padStart(2,
'0')).join('')` (join with the empty separator is concatenation) followed by
`.toUpperCase()`. -/
def bytesToHexUpper (bytes : List Nat) : String :=
  jsToUpperCase
    (String.mk ((bytes.map (fun b => (jsPadStart (natToHexStringLower b) 2 '0').data)).flatten))

/-- An uppercase hexadecimal digit. -/
def isUpperHexChar (c : Char) : Bool :=
  ('0' ≤ c && c ≤ '9') || ('A' ≤ c && c ≤ 'F')

/-- `src/drm.ts` lines 80–103 `generateSecMsGec`, as a function of
`Date.now()` and the accumulated skew. -/
def generateSecMsGec (nowMs clockSkewSeconds : ℚ) : String :=
  bytesToHexUpper (sha256 (utf8Bytes (secMsGecHashInput nowMs clockSkewSeconds)))

/-- The 300-second bucket a skew-corrected Unix timestamp falls in. -/
def tokenBucket (t : ℚ) : ℤ :=
  ⌊t / 300⌋

/-- Split a character list into its newline-separated lines (helper for
`specNormalizedContent`). -/
def splitIntoLines : List Char → List (List Char)
  | [] => [[]]
  | '\n' :: rest => [] :: splitIntoLines rest
  | c :: rest =>
    match splitIntoLines rest with
    | [] => [[c]]
    | line :: lines => (c :: line) :: lines

/-- Collapse each run of two or more adjacent blank lines to a single blank
line (helper for `specNormalizedContent`). -/
def collapseBlankLineRuns : List (List Char) → List (List Char)
  | [] => []
  | l :: rest =>
    if l = [] ∧ rest.head? = some [] then collapseBlankLineRuns rest
    else l :: collapseBlankLineRuns rest

/-- The content normalization claim C7 describes, following the
specification's words rather than the source (for comparison with the
implementation's `makeLegalContent`): runs of two or more blank lines are
collapsed, and leading and trailing blank lines are stripped. -/
def specNormalizedContent (s : String) : String :=
  let ls := collapseBlankLineRuns (splitIntoLines s.data)
  let ls := ls.dropWhile (fun l => l = [])
  let ls := (ls.reverse.dropWhile (fun l => l = [])).reverse
  String.mk ((ls.intersperse ['\n']).flatten)

/-! ## Theorems -/

lemma copyBackFields_eq (sub : Subtitle) : copyBackFields sub = sub := rfl

lemma mem_insertStable {α : Type} {le : α → α → Bool} {x a : α} :
    ∀ {l : List α}, a ∈ insertStable le x l → a = x ∨ a ∈ l := by
  intro l
  induction l with
  | nil => intro h; simp [insertStable] at h; exact Or.inl h
  | cons y ys ih =>
    intro h
    rw [insertStable] at h
    split at h
    · rcases List.mem_cons.mp h with h | h
      · exact Or.inr (by simp [h])
      · rcases ih h with h | h
        · exact Or.inl h
        · exact Or.inr (by simp [h])
    · simpa using h

lemma mem_foldl_insertStable {α : Type} {le : α → α → Bool} :
    ∀ (l acc : List α) (a : α),
      a ∈ l.foldl (fun acc x => insertStable le x acc) acc → a ∈ acc ∨ a ∈ l := by
  intro l
  induction l with
  | nil => intro acc a h; exact Or.inl h
  | cons x xs ih =>
    intro acc a h
    rcases ih (insertStable le x acc) a h with h | h
    · rcases mem_insertStable h with h | h
      · exact Or.inr (by simp [h])
      · exact Or.inl h
    · exact Or.inr (by simp [h])

lemma mem_jsSortStable {α : Type} {le : α → α → Bool} {l : List α} {a : α}
    (h : a ∈ jsSortStable le l) : a ∈ l := by
  rcases mem_foldl_insertStable l [] a h with h | h
  · simp at h
  · exact h

lemma sortAndReindexLoop_inPlace_irrelevant :
    ∀ (skip : Bool) (l : List (Nat × Subtitle)) (subNum skippedSubs : Int),
      sortAndReindexLoop false skip l subNum skippedSubs =
        sortAndReindexLoop true skip l subNum skippedSubs := by
  intro skip l
  induction l with
  | nil => intro _ _; rfl
  | cons p rest ih =>
    intro subNum skippedSubs
    obtain ⟨tag, sub⟩ := p
    simp only [sortAndReindexLoop, Bool.false_eq_true, if_false, if_true, copyBackFields_eq]
    by_cases h : skip = true ∧ shouldSkip sub = true
    · obtain ⟨hs, hss⟩ := h
      subst hs
      simp [hss, ih]
    · rw [if_neg h, if_neg h, ih]

lemma sortAndReindexLoop_spec :
    ∀ (inPlace skip : Bool) (l : List (Nat × Subtitle)) (subNum skippedSubs : Int),
      (∀ y ∈ (sortAndReindexLoop inPlace skip l subNum skippedSubs).1,
        ∃ tag, (tag, y) ∈ (sortAndReindexLoop inPlace skip l subNum skippedSubs).2) ∧
        (∀ q ∈ (sortAndReindexLoop inPlace skip l subNum skippedSubs).2,
          ∃ p ∈ l, q.1 = p.1 ∧ q.2.start = p.2.start ∧ q.2.endTime = p.2.endTime ∧
            q.2.content = p.2.content) := by
  intro inPlace skip l
  induction l with
  | nil => intro subNum skippedSubs; exact ⟨by simp [sortAndReindexLoop], by simp [sortAndReindexLoop]⟩
  | cons p rest ih =>
    intro subNum skippedSubs
    obtain ⟨tag, sub⟩ := p
    have hsubtitle : (if inPlace then sub else copyBackFields sub) = sub := by
      cases inPlace <;> simp [copyBackFields_eq]
    simp only [sortAndReindexLoop, hsubtitle]
    by_cases h : skip = true ∧ shouldSkip sub = true
    · rw [if_pos h]
      obtain ⟨ih1, ih2⟩ := ih (subNum + 1) (skippedSubs + 1)
      constructor
      · intro y hy
        obtain ⟨t, ht⟩ := ih1 y hy
        exact ⟨t, by simp [ht]⟩
      · intro q hq
        rcases List.mem_cons.mp hq with hq | hq
        · exact ⟨(tag, sub), by simp, by simp [hq]⟩
        · obtain ⟨pp, hpp, he⟩ := ih2 q hq
          exact ⟨pp, by simp [hpp], he⟩
    · rw [if_neg h]
      obtain ⟨ih1, ih2⟩ := ih (subNum + 1) skippedSubs
      constructor
      · intro y hy
        rcases List.mem_cons.mp hy with hy | hy
        · exact ⟨tag, by simp [hy]⟩
        · obtain ⟨t, ht⟩ := ih1 y hy
          exact ⟨t, by simp [ht]⟩
      · intro q hq
        rcases List.mem_cons.mp hq with hq | hq
        · exact ⟨(tag, sub), by simp, by simp [hq]⟩
        · obtain ⟨pp, hpp, he⟩ := ih2 q hq
          exact ⟨pp, by simp [hpp], he⟩

/-- Claim C9.  Every cue yielded by `sortAndReindex` is one of the (mutated)
input cue objects, whose `start`, `end` and `content` fields are those of the
corresponding input cue unchanged — only `index` is rewritten; and the
rewrite hits the input objects themselves even when `inPlace` is `false`,
whose only effect (assigning a field-wise copy's fields back onto the input
object) is a no-op: the run with `inPlace = false` is indistinguishable from
the run with `inPlace = true`. -/
theorem sortAndReindex_preserves_fields_mutating_inputs :
    ∀ (subtitles : List Subtitle) (startIndex : Int) (inPlace skip : Bool),
      sortAndReindex subtitles startIndex false skip =
          sortAndReindex subtitles startIndex true skip ∧
        (∀ y ∈ (sortAndReindex subtitles startIndex inPlace skip).1,
          ∃ tag, (tag, y) ∈ (sortAndReindex subtitles startIndex inPlace skip).2) ∧
        (∀ q ∈ (sortAndReindex subtitles startIndex inPlace skip).2,
          ∃ h : q.1 < subtitles.length,
            q.2.start = (subtitles.get ⟨q.1, h⟩).start ∧
              q.2.endTime = (subtitles.get ⟨q.1, h⟩).endTime ∧
              q.2.content = (subtitles.get ⟨q.1, h⟩).content) := by
  intro subtitles startIndex inPlace skip
  refine ⟨?_, ?_, ?_⟩
  · unfold sortAndReindex
    exact sortAndReindexLoop_inPlace_irrelevant skip _ startIndex 0
  · exact (sortAndReindexLoop_spec inPlace skip _ startIndex 0).1
  · intro q hq
    obtain ⟨p, hp, htag, h1, h2, h3⟩ := (sortAndReindexLoop_spec inPlace skip _ startIndex 0).2 q hq
    have hmem : p ∈ subtitles.enum := mem_jsSortStable hp
    obtain ⟨hlt, hval⟩ := List.mem_enum (x := p.2) (i := p.1) (by simpa using hmem)
    rw [htag]
    refine ⟨hlt, ?_, ?_, ?_⟩ <;> rw [List.get_eq_getElem, ← hval] <;> assumption

/-- Witness for `sortAndReindex_preserves_fields_mutating_inputs`: on a
concrete one-cue collection, the `inPlace = false` run equals the
`inPlace = true` run. -/
theorem sortAndReindex_preserves_fields_mutating_inputs_witness :
    sortAndReindex [⟨none, 0, 5, "x"⟩] 1 false true =
      sortAndReindex [⟨none, 0, 5, "x"⟩] 1 true true :=
  (sortAndReindex_preserves_fields_mutating_inputs [⟨none, 0, 5, "x"⟩] 1 true true).1

/-- Claim C1 (`code_bug` evaluation).  The specification demands that every
chunk yielded by `splitTextByByteLength` have byte length at most `maxBytes`,
and the source's own doc comment calls `byteLength` "the maximum allowed byte
length for any yielded chunk".  This fails: for the 13-byte spaceless ASCII
text `"aaaaaaaaaaaaa"` and `maxBytes = 12` the code yields one 13-byte chunk,
because line 171 applies `findSafeUtf8SplitPoint` to the whole remaining
buffer rather than to its first `maxBytes` bytes (and a non-fatal
`TextDecoder` never throws, so that call returns the full buffer length). -/
theorem splitTextByByteLength_yields_oversized_chunk :
    splitTextByByteLength (utf8Bytes "aaaaaaaaaaaaa") 12 = .ok [utf8Bytes "aaaaaaaaaaaaa"] ∧
      (utf8Bytes "aaaaaaaaaaaaa").length = 13 ∧ 12 < 13 := by
  refine ⟨?_, by decide, by decide⟩
  simp [splitTextByByteLength, splitLoop, chunkSplitPoint, findLastNewlineOrSpaceWithinLimit,
    findLastByteBefore, adjustSplitPointForXmlEntity, adjustSplitLoop, hasByteInRange,
    trimWhitespace, findSafeUtf8SplitPoint, isWsByte, utf8Bytes, utf8EncodeChar]

/-- Claim C2 (`code_bug` evaluation).  The specification demands that
concatenating the yielded chunks lose no non-whitespace byte, and that an
exhausted entity walk fail with the chunking error.  Both fail on the 6-byte
input `"&&&&&&"` with `maxBytes = 4`: the entity walk returns split point `0`,
which the guard at line 177 (`splitAt < 0`) does not catch — the split point
is provably never negative, so that `throw` is dead code — and line 191
(`data.slice(1)`) instead silently drops one `&` per iteration.  The run
yields a single 4-byte chunk: two non-whitespace bytes are lost and no error
is raised. -/
theorem splitTextByByteLength_drops_bytes_silently :
    splitTextByByteLength (utf8Bytes "&&&&&&") 4 = .ok [utf8Bytes "&&&&"] ∧
      (utf8Bytes "&&&&&&").length = 6 ∧ (utf8Bytes "&&&&").length = 4 ∧
      (∀ b ∈ utf8Bytes "&&&&&&", isWsByte b = false) := by
  refine ⟨?_, by decide, by decide, by decide⟩
  simp [splitTextByByteLength, splitLoop, chunkSplitPoint, findLastNewlineOrSpaceWithinLimit,
    findLastByteBefore, adjustSplitPointForXmlEntity, adjustSplitLoop, hasByteInRange,
    trimWhitespace, findSafeUtf8SplitPoint, isWsByte, utf8Bytes, utf8EncodeChar]

/-- Claim C3.  For every received binary frame whose parsed headers map
`Path` to `audio`, the payload is queued as an audio fragment exactly when
`Content-Type` is `audio/mpeg` and the payload is non-empty; an empty payload
with no `Content-Type` header is silently dropped; every other combination is
rejected (`UnexpectedResponse`). -/
theorem binaryFrameDecision_classification :
    ∀ (headers : List (List Nat × List Nat)) (audioData : List Nat),
      lookupHeader headers (utf8Bytes "Path") = some (utf8Bytes "audio") →
      (binaryFrameDecision headers audioData = .queued audioData ↔
          lookupHeader headers (utf8Bytes "Content-Type") = some (utf8Bytes "audio/mpeg") ∧
            audioData ≠ []) ∧
        (binaryFrameDecision headers audioData = .ignored ↔
          lookupHeader headers (utf8Bytes "Content-Type") = none ∧ audioData = []) ∧
        (¬ (lookupHeader headers (utf8Bytes "Content-Type") = some (utf8Bytes "audio/mpeg") ∧
              audioData ≠ []) →
          ¬ (lookupHeader headers (utf8Bytes "Content-Type") = none ∧ audioData = []) →
          ∃ message, binaryFrameDecision headers audioData = .rejected message) := by
  intro headers audioData hPath
  unfold binaryFrameDecision
  rcases hct : lookupHeader headers (utf8Bytes "Content-Type") with _ | ct
  · rcases audioData with _ | ⟨b, rest⟩ <;> simp [hPath, hct]
  · by_cases hmp : ct = utf8Bytes "audio/mpeg"
    · subst hmp
      rcases audioData with _ | ⟨b, rest⟩ <;> simp [hPath, hct]
    · rcases audioData with _ | ⟨b, rest⟩ <;> simp [hPath, hct, hmp]

/-- Witness for `binaryFrameDecision_classification`: a well-formed
`audio/mpeg` frame with a one-byte payload is queued. -/
theorem binaryFrameDecision_classification_witness :
    binaryFrameDecision
        [(utf8Bytes "Path", utf8Bytes "audio"),
         (utf8Bytes "Content-Type", utf8Bytes "audio/mpeg")] [7] = .queued [7] :=
  ((binaryFrameDecision_classification _ [7] (by decide)).1).mpr ⟨by decide, by decide⟩

/-- Claim C7 (counterexample).  The claim states that the rendered content of
every serialized block is the normalized content — leading/trailing blank
lines stripped, blank-line runs collapsed — "for every input string including
content that ends with a single trailing newline".  It fails on exactly that
case: `makeLegalContent "hello\n"` takes the fast path (non-empty, does not
start with a newline, no two adjacent newlines) and returns `"hello\n"`
unchanged, so the serialized block carries the trailing blank line the
normalization would strip.  It also fails on content containing `$`:
`String.prototype.replace` expands `GetSubstitution` escapes in its
replacement argument, so content `"a$&b"` — returned unchanged by
`makeLegalContent` — renders as `"a\x7bcontent\x7db"` (`$&` inserts the
matched slot text), and content `"a$\x27b"` (dollar and then a single quote)
renders as `"a\n\nb"`, with the two adjacent newlines that follow the slot
inserted into the content. -/
theorem toSrt_normalization_counterexample :
    makeLegalContent "hello\n" = "hello\n" ∧
      specNormalizedContent "hello\n" = "hello" ∧
      toSrt ⟨some 1, 0, 1000, "hello\n"⟩ none =
        "1\n00:00:00,000 --> 00:00:01,000\nhello\n\n\n" ∧
      toSrt ⟨some 1, 0, 1000, "hello\n"⟩ none ≠
        "1\n00:00:00,000 --> 00:00:01,000\n" ++ specNormalizedContent "hello\n" ++ "\n\n" ∧
      makeLegalContent "a\x24&b" = "a\x24&b" ∧
      toSrt ⟨some 2, 0, 1000, "a\x24&b"⟩ none =
        "2\n00:00:00,000 --> 00:00:01,000\na\x7bcontent\x7db\n\n" ∧
      toSrt ⟨some 3, 0, 1000, "a\x24\x27b"⟩ none =
        "3\n00:00:00,000 --> 00:00:01,000\na\n\nb\n\n" := by
  refine ⟨by decide, by decide, ?_, ?_, by decide, ?_, ?_⟩ <;>
    simp +decide [toSrt, makeLegalContent, containsDoubleNewline, jsTrimList, isJsWhitespace,
      jsWhitespaceCodes, collapseNewlineRuns, replaceAllList, replaceFirstList, replaceAllAux,
      replaceFirstAux, jsSubstitute, List.isPrefixOf, srtTemplate, timedeltaToSrtTimestamp,
      intToDecString, natToDecString, natDigitsRev, digitsRevFuel, jsPadStart]

lemma int_fdiv_natCast (m n : ℕ) : Int.fdiv (m : ℤ) (n : ℤ) = ((m / n : ℕ) : ℤ) := by
  rw [Int.fdiv_eq_ediv _ (by positivity)]
  simp

lemma int_tmod_natCast (m n : ℕ) : Int.tmod (m : ℤ) (n : ℤ) = ((m % n : ℕ) : ℤ) := by
  rw [Int.tmod_eq_emod (by positivity) (by positivity)]
  simp

lemma intToDecString_natCast (n : ℕ) : intToDecString (n : ℤ) = natToDecString n := by
  rw [intToDecString, if_neg (by omega)]
  simp

/-- Claim C8.  The subtitle timestamp formatter renders `HH:MM:SS,mmm` from a
total-millisecond count with the hour field unbounded (total hours, not
wrapped modulo 24): the three specified examples hold, a 25-hour value keeps
`25` in the hour field, and in general the four fields are total hours,
minutes mod 60, seconds mod 60 and milliseconds mod 1000. -/
theorem timedeltaToSrtTimestamp_format :
    timedeltaToSrtTimestamp 0 = "00:00:00,000" ∧
      timedeltaToSrtTimestamp 65000 = "00:01:05,000" ∧
      timedeltaToSrtTimestamp 3661500 = "01:01:01,500" ∧
      timedeltaToSrtTimestamp 90000000 = "25:00:00,000" ∧
      ∀ ms : ℕ,
        timedeltaToSrtTimestamp (ms : ℤ) =
          jsPadStart (natToDecString (ms / 3600000)) 2 '0' ++ ":" ++
            jsPadStart (natToDecString (ms / 60000 % 60)) 2 '0' ++ ":" ++
            jsPadStart (natToDecString (ms / 1000 % 60)) 2 '0' ++ "," ++
            jsPadStart (natToDecString (ms % 1000)) 3 '0' := by
  refine ⟨by decide, by decide, by decide, by decide, ?_⟩
  intro ms
  have h1000 : (1000 : ℤ) = ((1000 : ℕ) : ℤ) := by norm_num
  have h3600 : (3600 : ℤ) = ((3600 : ℕ) : ℤ) := by norm_num
  have h60 : (60 : ℤ) = ((60 : ℕ) : ℤ) := by norm_num
  have a1 : ms / 1000 / 3600 = ms / 3600000 := by
    rw [Nat.div_div_eq_div_mul]
  have a2 : ms / 1000 % 3600 / 60 = ms / 60000 % 60 := by
    rw [show (3600 : ℕ) = 60 * 60 by norm_num, ← Nat.div_mod_eq_mod_mul_div,
      Nat.div_div_eq_div_mul]
  have a3 : ms / 1000 % 3600 % 60 = ms / 1000 % 60 :=
    Nat.mod_mod_of_dvd _ (by norm_num)
  simp only [timedeltaToSrtTimestamp, h1000, h3600, h60, int_fdiv_natCast, int_tmod_natCast,
    intToDecString_natCast, a1, a2, a3]

lemma digitsRevFuel_lt_base :
    ∀ (fuel n : ℕ), n ≤ fuel → ∀ d ∈ digitsRevFuel 10 fuel n, d < 10 := by
  intro fuel
  induction fuel with
  | zero =>
    intro n hn d hd
    interval_cases n
    simp [digitsRevFuel] at hd
    omega
  | succ fuel ih =>
    intro n hn d hd
    rw [digitsRevFuel] at hd
    split at hd
    · simp at hd; omega
    · rcases List.mem_cons.mp hd with hd | hd
      · subst hd; exact Nat.mod_lt _ (by omega)
      · exact ih (n / 10) (by omega) d hd

lemma natToDecString_chars {n : ℕ} {c : Char} (hc : c ∈ (natToDecString n).data) :
    48 ≤ c.toNat ∧ c.toNat ≤ 57 := by
  simp only [natToDecString, List.mem_map, List.mem_reverse] at hc
  obtain ⟨d, hd, rfl⟩ := hc
  have hlt : d < 10 := digitsRevFuel_lt_base n n (le_refl n) d hd
  have hfact : ∀ e : ℕ, e < 10 →
      48 ≤ (Char.ofNat (48 + e)).toNat ∧ (Char.ofNat (48 + e)).toNat ≤ 57 := by decide
  exact hfact d hlt

lemma lbrace_not_mem_intToDecString (n : ℤ) :
    Char.ofNat 123 ∉ (intToDecString n).data := by
  intro hmem
  have h123 : (Char.ofNat 123).toNat = 123 := by decide
  rw [intToDecString] at hmem
  split at hmem
  · rcases List.mem_cons.mp hmem with h | h
    · exact absurd (congrArg Char.toNat h.symm) (by decide)
    · have := natToDecString_chars h
      omega
  · have := natToDecString_chars hmem
    omega

lemma lbrace_not_mem_jsPadStart_int (n : ℤ) (k : ℕ) :
    Char.ofNat 123 ∉ (jsPadStart (intToDecString n) k '0').data := by
  intro hmem
  simp only [jsPadStart, List.mem_append, List.mem_replicate] at hmem
  rcases hmem with h | h
  · exact absurd (congrArg Char.toNat h.2.symm) (by decide)
  · exact lbrace_not_mem_intToDecString n h

lemma lbrace_not_mem_timestamp (ms : ℤ) :
    Char.ofNat 123 ∉ (timedeltaToSrtTimestamp ms).data := by
  intro hmem
  rw [timedeltaToSrtTimestamp] at hmem
  simp only [String.data_append, List.mem_append] at hmem
  rcases hmem with (((((h | h) | h) | h) | h) | h) | h
  · exact lbrace_not_mem_jsPadStart_int _ 2 h
  · exact absurd h (by decide)
  · exact lbrace_not_mem_jsPadStart_int _ 2 h
  · exact absurd h (by decide)
  · exact lbrace_not_mem_jsPadStart_int _ 2 h
  · exact absurd h (by decide)
  · exact lbrace_not_mem_jsPadStart_int _ 3 h

lemma jsSubstitute_cons_no_dollar (m b a : List Char) (c : Char) (hc : c ≠ '\x24')
    (rest : List Char) : jsSubstitute m b a (c :: rest) = c :: jsSubstitute m b a rest := by
  cases rest with
  | nil => simp [jsSubstitute]
  | cons d rest2 => rw [jsSubstitute, if_neg hc]

lemma jsSubstitute_of_no_dollar (m b a : List Char) :
    ∀ repl : List Char, '\x24' ∉ repl → jsSubstitute m b a repl = repl := by
  intro repl
  induction repl with
  | nil => intro _; simp [jsSubstitute]
  | cons c rest ih =>
    intro h
    rw [jsSubstitute_cons_no_dollar m b a c (fun he => h (by simp [he])) rest,
      ih (fun hm => h (List.mem_cons_of_mem _ hm))]

lemma dollar_not_mem_intToDecString (n : ℤ) :
    '\x24' ∉ (intToDecString n).data := by
  intro hmem
  have h36 : ('\x24' : Char).toNat = 36 := by decide
  rw [intToDecString] at hmem
  split at hmem
  · rcases List.mem_cons.mp hmem with h | h
    · exact absurd (congrArg Char.toNat h.symm) (by decide)
    · have := natToDecString_chars h
      omega
  · have := natToDecString_chars hmem
    omega

lemma dollar_not_mem_jsPadStart_int (n : ℤ) (k : ℕ) :
    '\x24' ∉ (jsPadStart (intToDecString n) k '0').data := by
  intro hmem
  simp only [jsPadStart, List.mem_append, List.mem_replicate] at hmem
  rcases hmem with h | h
  · exact absurd (congrArg Char.toNat h.2.symm) (by decide)
  · exact dollar_not_mem_intToDecString n h

lemma dollar_not_mem_timestamp (ms : ℤ) :
    '\x24' ∉ (timedeltaToSrtTimestamp ms).data := by
  intro hmem
  rw [timedeltaToSrtTimestamp] at hmem
  simp only [String.data_append, List.mem_append] at hmem
  rcases hmem with (((((h | h) | h) | h) | h) | h) | h
  · exact dollar_not_mem_jsPadStart_int _ 2 h
  · exact absurd h (by decide)
  · exact dollar_not_mem_jsPadStart_int _ 2 h
  · exact absurd h (by decide)
  · exact dollar_not_mem_jsPadStart_int _ 2 h
  · exact absurd h (by decide)
  · exact dollar_not_mem_jsPadStart_int _ 3 h

lemma replaceFirstAux_append_notmem {pat repl : List Char} (c0 : Char) (pre : List Char)
    {suf : List Char} (hpat : pat.head? = some c0) :
    c0 ∉ pre → ∀ seen, replaceFirstAux pat repl seen (pre ++ suf) =
      pre ++ replaceFirstAux pat repl (pre.reverse ++ seen) suf := by
  induction pre with
  | nil => intro _ seen; simp
  | cons c cs ih =>
    intro hpre seen
    have hc : c ≠ c0 := fun he => hpre (by simp [he])
    have hnp : ¬ (pat.isPrefixOf (c :: (cs ++ suf)) = true) := by
      cases pat with
      | nil => simp at hpat
      | cons p ps =>
        have hp : p = c0 := by simpa using hpat
        subst hp
        simp [List.isPrefixOf]
        intro he
        exact absurd he.symm hc
    rw [List.cons_append, replaceFirstAux, if_neg hnp,
      ih (fun hm => hpre (by simp [hm])) (c :: seen)]
    simp

lemma replaceFirstAux_head_match (pat repl suf seen : List Char) (hne : pat ≠ []) :
    replaceFirstAux pat repl seen (pat ++ suf) =
      jsSubstitute pat seen.reverse suf repl ++ suf := by
  cases pat with
  | nil => exact absurd rfl hne
  | cons p ps =>
    have hdrop : (p :: (ps ++ suf)).drop (p :: ps).length = suf := by
      simp only [List.length_cons, List.drop_succ_cons]
      exact List.drop_left ps suf
    rw [List.cons_append, replaceFirstAux,
      if_pos (by rw [List.isPrefixOf_iff_prefix]; exact List.prefix_append _ _), hdrop]

lemma replaceAllAux_append_notmem {pat repl : List Char} (c0 : Char) (pre : List Char)
    {suf : List Char} (hpat : pat.head? = some c0) :
    c0 ∉ pre → ∀ seen, replaceAllAux pat repl seen (pre ++ suf) =
      pre ++ replaceAllAux pat repl (pre.reverse ++ seen) suf := by
  induction pre with
  | nil => intro _ seen; simp
  | cons c cs ih =>
    intro hpre seen
    have hc : c ≠ c0 := fun he => hpre (by simp [he])
    have hnp : ¬ (pat ≠ [] ∧ pat.isPrefixOf (c :: (cs ++ suf)) = true) := by
      cases pat with
      | nil => simp at hpat
      | cons p ps =>
        have hp : p = c0 := by simpa using hpat
        subst hp
        simp [List.isPrefixOf]
        intro he
        exact absurd he.symm hc
    rw [List.cons_append, replaceAllAux, if_neg hnp,
      ih (fun hm => hpre (by simp [hm])) (c :: seen)]
    simp

lemma replaceAllAux_single_id (c : Char) :
    ∀ l seen : List Char, replaceAllAux [c] [c] seen l = l := by
  intro l
  induction l with
  | nil => intro seen; simp [replaceAllAux]
  | cons a rest ih =>
    intro seen
    by_cases ha : a = c
    · subst ha
      rw [replaceAllAux, if_pos ⟨by simp, by simp [List.isPrefixOf]⟩]
      simp [jsSubstitute, ih]
    · rw [replaceAllAux, if_neg ?_, ih (a :: seen)]
      intro hp
      have h2 := hp.2
      simp [List.isPrefixOf] at h2
      exact ha h2.symm

lemma collapseNewlineRuns_head? : ∀ l : List Char, (collapseNewlineRuns l).head? = l.head? := by
  intro l
  induction l with
  | nil => rfl
  | cons c rest ih =>
    rw [collapseNewlineRuns]
    split
    · rename_i hcond
      rw [ih]
      have h1 : c = '\n' := by simpa using hcond.1
      have h2 : rest.head? = some '\n' := by simpa using hcond.2
      rw [h2, h1]
      rfl
    · rfl

lemma collapseNewlineRuns_no_double : ∀ l : List Char,
    containsDoubleNewline (collapseNewlineRuns l) = false := by
  intro l
  induction l with
  | nil => rfl
  | cons c rest ih =>
    rw [collapseNewlineRuns]
    split
    · exact ih
    · rename_i hcond
      rcases hcr : collapseNewlineRuns rest with _ | ⟨c2, t2⟩
      · rfl
      · rw [containsDoubleNewline]
        have hdd : containsDoubleNewline (c2 :: t2) = false := by rw [← hcr]; exact ih
        rw [hdd, Bool.or_false]
        have hh : rest.head? = some c2 := by
          rw [← collapseNewlineRuns_head? rest, hcr]; rfl
        by_cases hc : c = '\n'
        · subst hc
          have hc2 : ¬ c2 = '\n' := by
            intro he
            exact hcond ⟨by simp, by simp [hh, he]⟩
          simp [hc2]
        · simp [hc]

lemma dropWhile_head?_not {p : Char → Bool} : ∀ {l : List Char} {c : Char},
    (l.dropWhile p).head? = some c → p c = false := by
  intro l
  induction l with
  | nil => intro c h; simp at h
  | cons a rest ih =>
    intro c h
    rw [List.dropWhile] at h
    split at h
    · exact ih h
    · rename_i hpa
      have hac : a = c := by simpa using h
      subst hac
      simpa using hpa

lemma jsTrimList_head? {l : List Char} {c : Char} (h : (jsTrimList l).head? = some c) :
    isJsWhitespace c = false := by
  unfold jsTrimList at h
  have hpre : ((l.dropWhile isJsWhitespace).reverse.dropWhile isJsWhitespace).reverse <+:
      l.dropWhile isJsWhitespace := by
    rw [show l.dropWhile isJsWhitespace =
      (l.dropWhile isJsWhitespace).reverse.reverse by simp, List.reverse_prefix]
    simpa using List.dropWhile_suffix (l := (l.dropWhile isJsWhitespace).reverse) isJsWhitespace
  obtain ⟨t, ht⟩ := hpre
  rcases hres : ((l.dropWhile isJsWhitespace).reverse.dropWhile isJsWhitespace).reverse
    with _ | ⟨a, as⟩
  · rw [hres] at h; simp at h
  · rw [hres] at h ht
    have hac : a = c := by simpa using h
    subst hac
    have hm : (l.dropWhile isJsWhitespace).head? = some a := by rw [← ht]; rfl
    exact dropWhile_head?_not hm

lemma makeLegalContent_no_double (content : String) :
    containsDoubleNewline (makeLegalContent content).data = false := by
  rw [makeLegalContent]
  split
  · rename_i hcond
    exact hcond.2.2
  · exact collapseNewlineRuns_no_double _

lemma makeLegalContent_head (content : String) :
    (makeLegalContent content).data.head? ≠ some '\n' := by
  rw [makeLegalContent]
  split
  · rename_i hcond
    exact hcond.2.1
  · intro h
    have h2 : (collapseNewlineRuns (jsTrimList content.data)).head? = some '\n' := h
    rw [collapseNewlineRuns_head?] at h2
    exact absurd (jsTrimList_head? h2) (by decide)

/-- Claim C7 (amended).  For every cue, the serialized block is the index
line, the timestamp line, and then the result of substituting
`makeLegalContent` of the cue content into the content slot of the template
with ECMA-262 `GetSubstitution` expansion of its `$`-escapes (a doubled `$`
collapses to one, `$&` inserts the matched slot text `\x7bcontent\x7d`, `$`
followed by a backquote inserts the block prefix before the slot, `$`
followed by a quote inserts the two newlines after it), followed by a blank
line.  Whenever the normalized content contains no `$` — so the substitution
leaves it unchanged — the rendered content is exactly `makeLegalContent` of
the cue content: the content unchanged whenever it is non-empty, does not
begin with a newline and contains no two adjacent newlines (in particular a
single trailing newline is rendered as-is — the case on which the original
claim fails); otherwise the content trimmed of leading and trailing
whitespace with every run of two or more newlines collapsed to one.  The
normalized content itself contains no two adjacent newlines and does not
begin with one. -/
theorem toSrt_renders_makeLegalContent :
    ∀ sub : Subtitle,
      toSrt sub none =
        intToDecString (sub.index.getD 0) ++ "\n" ++ timedeltaToSrtTimestamp sub.start
          ++ " --> " ++ timedeltaToSrtTimestamp sub.endTime ++ "\n"
          ++ String.mk (jsSubstitute "\x7bcontent\x7d".data
              ((intToDecString (sub.index.getD 0)).data ++ ['\n']
                ++ (timedeltaToSrtTimestamp sub.start).data ++ " --> ".data
                ++ (timedeltaToSrtTimestamp sub.endTime).data ++ ['\n'])
              "\n\n".data (makeLegalContent sub.content).data)
          ++ "\n\n" ∧
      containsDoubleNewline (makeLegalContent sub.content).data = false ∧
      (makeLegalContent sub.content).data.head? ≠ some '\n' ∧
      ('\x24' ∉ (makeLegalContent sub.content).data →
        toSrt sub none =
          intToDecString (sub.index.getD 0) ++ "\n" ++ timedeltaToSrtTimestamp sub.start
            ++ " --> " ++ timedeltaToSrtTimestamp sub.endTime ++ "\n"
            ++ makeLegalContent sub.content ++ "\n\n") := by
  intro sub
  have hmain : toSrt sub none =
      intToDecString (sub.index.getD 0) ++ "\n" ++ timedeltaToSrtTimestamp sub.start
        ++ " --> " ++ timedeltaToSrtTimestamp sub.endTime ++ "\n"
        ++ String.mk (jsSubstitute "\x7bcontent\x7d".data
            ((intToDecString (sub.index.getD 0)).data ++ ['\n']
              ++ (timedeltaToSrtTimestamp sub.start).data ++ " --> ".data
              ++ (timedeltaToSrtTimestamp sub.endTime).data ++ ['\n'])
            "\n\n".data (makeLegalContent sub.content).data)
        ++ "\n\n" := by
    simp only [toSrt, Option.getD_none, ne_eq, reduceCtorEq, not_false_eq_true, if_true,
      ite_true, replaceFirstList, replaceAllList]
    rw [replaceAllAux_single_id]
    have hbI : Char.ofNat 123 ∉ (intToDecString (sub.index.getD 0)).data :=
      lbrace_not_mem_intToDecString _
    have hbTS : Char.ofNat 123 ∉ (timedeltaToSrtTimestamp sub.start).data :=
      lbrace_not_mem_timestamp _
    have hbTE : Char.ofNat 123 ∉ (timedeltaToSrtTimestamp sub.endTime).data :=
      lbrace_not_mem_timestamp _
    have hb1 : Char.ofNat 123 ∉ (intToDecString (sub.index.getD 0)).data ++ ['\n'] := by
      intro h
      rcases List.mem_append.mp h with h | h
      · exact hbI h
      · revert h; decide
    have hb2 : Char.ofNat 123 ∉ (intToDecString (sub.index.getD 0)).data ++ ['\n']
        ++ (timedeltaToSrtTimestamp sub.start).data ++ " --> ".data := by
      intro h
      rcases List.mem_append.mp h with h | h
      · rcases List.mem_append.mp h with h | h
        · exact hb1 h
        · exact hbTS h
      · revert h; decide
    have hb3 : Char.ofNat 123 ∉ (intToDecString (sub.index.getD 0)).data ++ ['\n']
        ++ (timedeltaToSrtTimestamp sub.start).data ++ " --> ".data
        ++ (timedeltaToSrtTimestamp sub.endTime).data ++ ['\n'] := by
      intro h
      rcases List.mem_append.mp h with h | h
      · rcases List.mem_append.mp h with h | h
        · exact hb2 h
        · exact hbTE h
      · revert h; decide
    rw [show srtTemplate = "\x7bidx\x7d".data ++
      "\x7beol\x7d\x7bstart\x7d --> \x7bend\x7d\x7beol\x7d\x7bcontent\x7d\x7beol\x7d\x7beol\x7d".data
      by decide]
    rw [replaceFirstAux_head_match _ _ _ _ (by decide)]
    rw [jsSubstitute_of_no_dollar _ _ _ _ (dollar_not_mem_intToDecString _)]
    rw [replaceAllAux_append_notmem (Char.ofNat 123) _ (by decide) hbI []]
    rw [show ∀ s : List Char, replaceAllAux "\x7beol\x7d".data ['\n'] s
        "\x7beol\x7d\x7bstart\x7d --> \x7bend\x7d\x7beol\x7d\x7bcontent\x7d\x7beol\x7d\x7beol\x7d".data =
        "\n\x7bstart\x7d --> \x7bend\x7d\n\x7bcontent\x7d\n\n".data from
      fun s => by simp [replaceAllAux, jsSubstitute, List.isPrefixOf]]
    rw [show ("\n\x7bstart\x7d --> \x7bend\x7d\n\x7bcontent\x7d\n\n".data : List Char) =
        ['\n'] ++ ("\x7bstart\x7d".data ++ " --> \x7bend\x7d\n\x7bcontent\x7d\n\n".data) by decide,
      ← List.append_assoc]
    rw [replaceFirstAux_append_notmem (Char.ofNat 123) _ (by decide) hb1 [],
      replaceFirstAux_head_match _ _ _ _ (by decide)]
    rw [jsSubstitute_of_no_dollar _ _ _ _ (dollar_not_mem_timestamp _)]
    rw [show (" --> \x7bend\x7d\n\x7bcontent\x7d\n\n".data : List Char) =
        " --> ".data ++ ("\x7bend\x7d".data ++ "\n\x7bcontent\x7d\n\n".data) by decide,
      ← List.append_assoc, ← List.append_assoc]
    rw [replaceFirstAux_append_notmem (Char.ofNat 123) _ (by decide) hb2 [],
      replaceFirstAux_head_match _ _ _ _ (by decide)]
    rw [jsSubstitute_of_no_dollar _ _ _ _ (dollar_not_mem_timestamp _)]
    rw [show ("\n\x7bcontent\x7d\n\n".data : List Char) =
        ['\n'] ++ ("\x7bcontent\x7d".data ++ "\n\n".data) by decide,
      ← List.append_assoc, ← List.append_assoc]
    rw [replaceFirstAux_append_notmem (Char.ofNat 123) _ (by decide) hb3 [],
      replaceFirstAux_head_match _ _ _ _ (by decide)]
    apply String.ext
    simp [String.data_append, List.append_assoc]
  refine ⟨hmain, makeLegalContent_no_double sub.content, makeLegalContent_head sub.content, ?_⟩
  intro hdollar
  rw [hmain, jsSubstitute_of_no_dollar _ _ _ _ hdollar]

/-- Witness for `toSrt_renders_makeLegalContent` at a concrete cue (the
`$`-free corollary and the two normal-form conjuncts, instantiated). -/
theorem toSrt_renders_makeLegalContent_witness :
    toSrt ⟨some 1, 0, 1000, "hi"⟩ none =
        intToDecString ((some (1 : Int)).getD 0) ++ "\n" ++ timedeltaToSrtTimestamp 0
          ++ " --> " ++ timedeltaToSrtTimestamp 1000 ++ "\n"
          ++ makeLegalContent "hi" ++ "\n\n" ∧
      containsDoubleNewline (makeLegalContent "hi").data = false ∧
      (makeLegalContent "hi").data.head? ≠ some '\n' := by
  have h := toSrt_renders_makeLegalContent ⟨some 1, 0, 1000, "hi"⟩
  exact ⟨h.2.2.2 (by decide), h.2.1, h.2.2.1⟩

/-- Claim C10.  `parseMetadata` on a `Metadata` list with no boundary record
(empty, or consisting only of `SessionEnd` records) raises
`UnexpectedResponse` rather than silently ignoring the frame; a record of any
unknown type encountered before the first boundary record raises
`UnknownResponse`; and `streamInternal`'s `audio.metadata` branch propagates
either error. -/
theorem parseMetadata_no_boundary_errors :
    (∀ (oc : Int) (records : List MetadataRecord),
        (∀ r ∈ records, r.type = "SessionEnd") →
        parseMetadata oc records =
          .error (.unexpectedResponse "No WordBoundary metadata found")) ∧
      (∀ (oc : Int) (pre : List MetadataRecord) (r : MetadataRecord)
          (rest : List MetadataRecord),
        (∀ p ∈ pre, p.type = "SessionEnd") →
        r.type ≠ "WordBoundary" → r.type ≠ "SentenceBoundary" → r.type ≠ "SessionEnd" →
        parseMetadata oc (pre ++ r :: rest) =
          .error (.unknownResponse ("Unknown metadata type: " ++ r.type))) ∧
      (∀ (s : CommunicateState) (records : List MetadataRecord) (e : JsError),
        parseMetadata s.offsetCompensation records = .error e →
        processTextFrame s (.audioMetadata records) = .error e) := by
  refine ⟨?_, ?_, ?_⟩
  · intro oc records hall
    induction records with
    | nil => rfl
    | cons r rest ih =>
      have hr := hall r (by simp)
      rw [parseMetadata, hr]
      simp only [reduceIte, String.reduceEq, or_self, if_false, if_true]
      exact ih (fun p hp => hall p (by simp [hp]))
  · intro oc pre r rest hall h1 h2 h3
    induction pre with
    | nil =>
      rw [List.nil_append, parseMetadata]
      simp [h1, h2, h3]
    | cons p ps ih =>
      have hp := hall p (by simp)
      rw [List.cons_append, parseMetadata, hp]
      simp only [reduceIte, String.reduceEq, or_self, if_false, if_true]
      exact ih (fun q hq => hall q (by simp [hq]))
  · intro s records e herr
    simp [processTextFrame, herr]

/-- Witness for `parseMetadata_no_boundary_errors`: a `Metadata` list holding
one `SessionEnd` record raises `UnexpectedResponse`. -/
theorem parseMetadata_no_boundary_errors_witness :
    parseMetadata 0 [⟨"SessionEnd", 0, 0, ""⟩] =
      .error (.unexpectedResponse "No WordBoundary metadata found") :=
  parseMetadata_no_boundary_errors.1 0 [⟨"SessionEnd", 0, 0, ""⟩] (by decide)

lemma parseMetadata_ok_offset_ge (oc : Int) :
    ∀ (records : List MetadataRecord) (m : TTSChunkMetadata),
      (∀ r ∈ records, 0 ≤ r.offset ∧ 0 ≤ r.duration) →
      parseMetadata oc records = .ok m → oc ≤ m.offset + m.duration := by
  intro records
  induction records with
  | nil => intro m _ h; simp [parseMetadata] at h
  | cons r rest ih =>
    intro m hnn hok
    rw [parseMetadata] at hok
    split at hok
    · cases hok
      have := hnn r (by simp)
      simp only
      omega
    · split at hok
      · exact ih m (fun q hq => hnn q (by simp [hq])) hok
      · cases hok

/-- One processed text frame neither decreases `offsetCompensation` nor breaks
the invariant `offsetCompensation ≤ lastDurationOffset + 8 750 000`, provided
the frame's raw offsets and durations are non-negative. -/
lemma processTextFrame_oc_step {s s' : CommunicateState} {f : TextFrame}
    {m : Option TTSChunkMetadata} (hf : frameNonneg f)
    (hinv : s.offsetCompensation ≤ s.lastDurationOffset + 8750000)
    (hok : processTextFrame s f = .ok (s', m)) :
    s.offsetCompensation ≤ s'.offsetCompensation ∧
      s'.offsetCompensation ≤ s'.lastDurationOffset + 8750000 := by
  cases f with
  | audioMetadata records =>
    rw [processTextFrame] at hok
    rcases hmk : parseMetadata s.offsetCompensation records with e | pm
    · rw [hmk] at hok; cases hok
    · rw [hmk] at hok
      cases hok
      have hge := parseMetadata_ok_offset_ge s.offsetCompensation records pm hf hmk
      constructor
      · simp
      · simp only
        omega
  | turnEnd => cases hok; exact ⟨hinv, by simp⟩
  | turnStart => cases hok; exact ⟨le_refl _, hinv⟩
  | response => cases hok; exact ⟨le_refl _, hinv⟩
  | other path => cases hok

lemma processTextFrames_oc_mono :
    ∀ (fs : List TextFrame) (s s' : CommunicateState),
      (∀ f ∈ fs, frameNonneg f) →
      s.offsetCompensation ≤ s.lastDurationOffset + 8750000 →
      processTextFrames s fs = .ok s' →
      s.offsetCompensation ≤ s'.offsetCompensation ∧
        s'.offsetCompensation ≤ s'.lastDurationOffset + 8750000 := by
  intro fs
  induction fs with
  | nil => intro s s' _ hinv hok; cases hok; exact ⟨le_refl _, hinv⟩
  | cons f rest ih =>
    intro s s' hall hinv hok
    rw [processTextFrames] at hok
    rcases hstep : processTextFrame s f with e | p
    · rw [hstep] at hok; cases hok
    · obtain ⟨s2, m2⟩ := p
      rw [hstep] at hok
      obtain ⟨h1, h2⟩ := processTextFrame_oc_step (hall f (by simp)) hinv hstep
      obtain ⟨h3, h4⟩ := ih s2 s' (fun q hq => hall q (by simp [hq])) h2 hok
      exact ⟨le_trans h1 h3, h4⟩

/-- Claim C4.  On each `turn.end` the orchestrator sets `offsetCompensation`
to `lastDurationOffset + 8 750 000` (100-ns units); and along any stream of
frames processed from the constructor state whose raw offsets and durations
are non-negative, `offsetCompensation` is monotonically non-decreasing across
chunks (any successfully processed continuation can only grow it). -/
theorem offsetCompensation_turn_end_and_monotone :
    (∀ s : CommunicateState,
        processTextFrame s .turnEnd =
          .ok ({ s with offsetCompensation := s.lastDurationOffset + 8750000 }, none)) ∧
      (∀ (fs1 fs2 : List TextFrame) (s1 s2 : CommunicateState),
        (∀ f ∈ fs1 ++ fs2, frameNonneg f) →
        processTextFrames initialCommunicateState fs1 = .ok s1 →
        processTextFrames s1 fs2 = .ok s2 →
        s1.offsetCompensation ≤ s2.offsetCompensation) := by
  constructor
  · intro s; rfl
  · intro fs1 fs2 s1 s2 hall h1 h2
    obtain ⟨-, hinv1⟩ :=
      processTextFrames_oc_mono fs1 initialCommunicateState s1
        (fun f hf => hall f (by simp [hf])) (by simp [initialCommunicateState]) h1
    exact (processTextFrames_oc_mono fs2 s1 s2 (fun f hf => hall f (by simp [hf])) hinv1 h2).1

/-- Witness for `offsetCompensation_turn_end_and_monotone`: a stream chunk
consisting of one `WordBoundary` record (raw offset 100, duration 50) and its
`turn.end`, followed by a second chunk ending at once, keeps
`offsetCompensation` non-decreasing (8 750 150 for both chunks). -/
theorem offsetCompensation_turn_end_and_monotone_witness :
    processTextFrames initialCommunicateState
        [.audioMetadata [⟨"WordBoundary", 100, 50, "hi"⟩], .turnEnd] =
        .ok ⟨[], 8750150, 150, false⟩ ∧
      processTextFrames (⟨[], 8750150, 150, false⟩ : CommunicateState) [.turnEnd] =
        .ok ⟨[], 8750150, 150, false⟩ ∧
      (8750150 : Int) ≤ 8750150 := by
  have h1 : processTextFrames initialCommunicateState
      [.audioMetadata [⟨"WordBoundary", 100, 50, "hi"⟩], .turnEnd] =
      .ok ⟨[], 8750150, 150, false⟩ := by
    simp [processTextFrames, processTextFrame, parseMetadata, initialCommunicateState]
  have h2 : processTextFrames (⟨[], 8750150, 150, false⟩ : CommunicateState) [.turnEnd] =
      .ok ⟨[], 8750150, 150, false⟩ := by
    simp [processTextFrames, processTextFrame]
  refine ⟨h1, h2, ?_⟩
  exact offsetCompensation_turn_end_and_monotone.2
    [.audioMetadata [⟨"WordBoundary", 100, 50, "hi"⟩], .turnEnd] [.turnEnd] _ _
    (by intro f hf; fin_cases hf <;> simp [frameNonneg]) h1 h2

lemma digitsRevFuel_val : ∀ (fuel n : ℕ), n ≤ fuel → digitsVal (digitsRevFuel 10 fuel n) = n := by
  intro fuel
  induction fuel with
  | zero =>
    intro n hn
    interval_cases n
    rfl
  | succ fuel ih =>
    intro n hn
    rw [digitsRevFuel]
    split
    · simp [digitsVal]
    · rw [digitsVal, ih (n / 10) (by omega)]
      omega

lemma natToDecString_data_injective (m n : ℕ)
    (h : (natToDecString m).data = (natToDecString n).data) : m = n := by
  have hinj : ∀ l1 l2 : List ℕ, (∀ d ∈ l1, d < 10) → (∀ d ∈ l2, d < 10) →
      l1.map (fun d => Char.ofNat (48 + d)) = l2.map (fun d => Char.ofNat (48 + d)) →
      l1 = l2 := by
    intro l1
    induction l1 with
    | nil =>
      intro l2 _ _ h
      cases l2 with
      | nil => rfl
      | cons e es => simp at h
    | cons d ds ih =>
      intro l2 h1 h2 hmap
      cases l2 with
      | nil => simp at hmap
      | cons e es =>
        simp only [List.map_cons, List.cons.injEq] at hmap
        have hfact : ∀ a : ℕ, a < 10 → ∀ b : ℕ, b < 10 →
            Char.ofNat (48 + a) = Char.ofNat (48 + b) → a = b := by decide
        have hde : d = e := hfact d (h1 d (by simp)) e (h2 e (by simp)) hmap.1
        rw [hde,
          ih es (fun x hx => h1 x (by simp [hx])) (fun x hx => h2 x (by simp [hx])) hmap.2]
  have hrev : (natDigitsRev m).reverse = (natDigitsRev n).reverse :=
    hinj _ _
      (fun d hd => digitsRevFuel_lt_base m m le_rfl d (List.mem_reverse.mp hd))
      (fun d hd => digitsRevFuel_lt_base n n le_rfl d (List.mem_reverse.mp hd)) h
  have hdig : natDigitsRev m = natDigitsRev n := List.reverse_injective hrev
  rw [← digitsRevFuel_val m m le_rfl, ← digitsRevFuel_val n n le_rfl]
  exact congrArg digitsVal hdig

lemma tokenBucket_shift (t : ℚ) :
    tokenBucket t + 38814912 = ⌊(t + WIN_EPOCH) / 300⌋ := by
  rw [tokenBucket,
    show (t + WIN_EPOCH) / 300 = t / 300 + ((38814912 : ℤ) : ℚ) by
      rw [WIN_EPOCH]; push_cast; ring,
    Int.floor_add_int]

/-- The string `generateSecMsGec` hashes, in closed form: the decimal ticks
are `3·10⁹ · (bucket + 38814912)` where `bucket` is the 300-second bucket of
the skew-corrected timestamp. -/
lemma secMsGecHashInput_formula (nowMs skew : ℚ)
    (h0 : 0 ≤ getUnixTimestamp nowMs skew + WIN_EPOCH) :
    secMsGecHashInput nowMs skew =
      intToDecString (3000000000 * (tokenBucket (getUnixTimestamp nowMs skew) + 38814912))
        ++ TRUSTED_CLIENT_TOKEN := by
  have htr : jsTrunc ((getUnixTimestamp nowMs skew + WIN_EPOCH) / 300) =
      ⌊(getUnixTimestamp nowMs skew + WIN_EPOCH) / 300⌋ := by
    rw [jsTrunc, if_pos (div_nonneg h0 (by norm_num))]
  simp only [secMsGecHashInput, jsFmod]
  congr 1
  congr 1
  rw [show getUnixTimestamp nowMs skew + WIN_EPOCH -
      (getUnixTimestamp nowMs skew + WIN_EPOCH -
        300 * (jsTrunc ((getUnixTimestamp nowMs skew + WIN_EPOCH) / 300) : ℚ)) =
      300 * (jsTrunc ((getUnixTimestamp nowMs skew + WIN_EPOCH) / 300) : ℚ) by ring,
    htr, ← tokenBucket_shift]
  rw [show (300 : ℚ) * ((tokenBucket (getUnixTimestamp nowMs skew) + 38814912 : ℤ) : ℚ) *
      (S_TO_NS / 100) =
      ((3000000000 * (tokenBucket (getUnixTimestamp nowMs skew) + 38814912) : ℤ) : ℚ) by
        rw [S_TO_NS]; push_cast; ring]
  exact Int.floor_intCast _

lemma tokenBucket_shift_nonneg (t : ℚ) (h0 : 0 ≤ t + WIN_EPOCH) :
    0 ≤ tokenBucket t + 38814912 := by
  rw [tokenBucket_shift]
  exact Int.floor_nonneg.mpr (div_nonneg h0 (by norm_num))

lemma mem_wordBytes_lt {w b : ℕ} (h : b ∈ wordBytes w) : b < 256 := by
  rcases (by simpa [wordBytes] using h : b = _ ∨ b = _ ∨ b = _ ∨ b = _) with h | h | h | h <;>
    subst h <;> exact Nat.mod_lt _ (by norm_num)

lemma sha256_length_and_bytes (msg : List ℕ) :
    (sha256 msg).length = 32 ∧ ∀ b ∈ sha256 msg, b < 256 := by
  constructor
  · simp [sha256, wordBytes]
  · intro b hb
    simp only [sha256, List.mem_append] at hb
    rcases hb with ((((((h | h) | h) | h) | h) | h) | h) | h <;> exact mem_wordBytes_lt h

lemma bytesToHexUpper_cons (b : ℕ) (bs : List ℕ) :
    (bytesToHexUpper (b :: bs)).data =
      (jsToUpperCase (jsPadStart (natToHexStringLower b) 2 '0')).data
        ++ (bytesToHexUpper bs).data := by
  simp [bytesToHexUpper, jsToUpperCase]

set_option maxRecDepth 8000 in
lemma hexPiece_upper_spec : ∀ b : ℕ, b < 256 →
    (jsToUpperCase (jsPadStart (natToHexStringLower b) 2 '0')).data.length = 2 ∧
      ∀ c ∈ (jsToUpperCase (jsPadStart (natToHexStringLower b) 2 '0')).data,
        isUpperHexChar c = true := by decide

lemma bytesToHexUpper_spec :
    ∀ bytes : List ℕ, (∀ b ∈ bytes, b < 256) →
      (bytesToHexUpper bytes).data.length = 2 * bytes.length ∧
        ∀ c ∈ (bytesToHexUpper bytes).data, isUpperHexChar c = true := by
  have hpiece := hexPiece_upper_spec
  intro bytes
  induction bytes with
  | nil =>
    intro _
    exact ⟨rfl, by intro c hc; simp [bytesToHexUpper, jsToUpperCase] at hc⟩
  | cons b bs ih =>
    intro hall
    obtain ⟨hl, hc⟩ := hpiece b (hall b (by simp))
    obtain ⟨ihl, ihc⟩ := ih (fun x hx => hall x (by simp [hx]))
    rw [bytesToHexUpper_cons]
    constructor
    · rw [List.length_append, hl, ihl, List.length_cons]
      ring
    · intro c hcmem
      rcases List.mem_append.mp hcmem with h | h
      exacts [hc c h, ihc c h]

/-- Claim C5.  For a fixed accumulated skew, two invocations of
`generateSecMsGec` whose skew-corrected timestamps fall in the same
300-second bucket return the identical digest, and that digest is a
64-character uppercase-hex string; invocations in different buckets pass
different strings to SHA-256 (and so differ with overwhelming probability).
The embedding works in exact rational arithmetic; the timestamps are assumed
not to precede the Windows epoch (year 1601), where JS `%`-truncation and
mathematical flooring agree. -/
theorem generateSecMsGec_bucket_determinism :
    ∀ now1 now2 skew : ℚ,
      0 ≤ getUnixTimestamp now1 skew + WIN_EPOCH →
      0 ≤ getUnixTimestamp now2 skew + WIN_EPOCH →
      (tokenBucket (getUnixTimestamp now1 skew) = tokenBucket (getUnixTimestamp now2 skew) →
          generateSecMsGec now1 skew = generateSecMsGec now2 skew) ∧
        ((generateSecMsGec now1 skew).length = 64 ∧
          ∀ c ∈ (generateSecMsGec now1 skew).data, isUpperHexChar c = true) ∧
        (tokenBucket (getUnixTimestamp now1 skew) ≠ tokenBucket (getUnixTimestamp now2 skew) →
          secMsGecHashInput now1 skew ≠ secMsGecHashInput now2 skew) := by
  intro now1 now2 skew h1 h2
  refine ⟨?_, ?_, ?_⟩
  · intro hb
    unfold generateSecMsGec
    rw [secMsGecHashInput_formula now1 skew h1, secMsGecHashInput_formula now2 skew h2, hb]
  · obtain ⟨hlen, hbytes⟩ := sha256_length_and_bytes (utf8Bytes (secMsGecHashInput now1 skew))
    obtain ⟨hl, hc⟩ := bytesToHexUpper_spec _ hbytes
    constructor
    · show (generateSecMsGec now1 skew).data.length = 64
      rw [generateSecMsGec, hl, hlen]
    · intro c hcmem
      exact hc c hcmem
  · intro hb heq
    rw [secMsGecHashInput_formula now1 skew h1, secMsGecHashInput_formula now2 skew h2] at heq
    have hdata := congrArg String.data heq
    rw [String.data_append, String.data_append] at hdata
    have hI := List.append_cancel_right hdata
    have hA : ¬ (3000000000 * (tokenBucket (getUnixTimestamp now1 skew) + 38814912) < 0) := by
      have := tokenBucket_shift_nonneg _ h1
      omega
    have hB : ¬ (3000000000 * (tokenBucket (getUnixTimestamp now2 skew) + 38814912) < 0) := by
      have := tokenBucket_shift_nonneg _ h2
      omega
    rw [intToDecString, if_neg hA, intToDecString, if_neg hB] at hI
    have hnat := natToDecString_data_injective _ _ hI
    have habs :
        3000000000 * (tokenBucket (getUnixTimestamp now1 skew) + 38814912) =
          3000000000 * (tokenBucket (getUnixTimestamp now2 skew) + 38814912) := by
      omega
    have := mul_left_cancel₀ (a := (3000000000 : ℤ)) (by norm_num) habs
    omega

/-- Witness for `generateSecMsGec_bucket_determinism`: two `Date.now()`
values 100 seconds apart (at zero skew) land in the same 300-second bucket
and get the same token. -/
theorem generateSecMsGec_bucket_determinism_witness :
    generateSecMsGec 1728000000000 0 = generateSecMsGec 1728000100000 0 :=
  (generateSecMsGec_bucket_determinism 1728000000000 1728000100000 0
    (by rw [getUnixTimestamp, WIN_EPOCH]; norm_num)
    (by rw [getUnixTimestamp, WIN_EPOCH]; norm_num)).1
    (by rw [getUnixTimestamp, getUnixTimestamp, tokenBucket, tokenBucket]; norm_num)

/-- Claim C6.  `stream()` is single-use: on any state whose `streamWasCalled`
flag is set — which is exactly the state left behind by a first call,
successful or not — a further call fails with the plain
`Error('stream can only be called once.')` (the condition the specification
names `AlreadyStreamed`) and performs no network action at all. -/
theorem streamCall_single_use :
    (∀ (s : CommunicateState) (texts : List (List Nat)),
        s.streamWasCalled = true →
        streamCall s texts =
          (.error (.genericError "stream can only be called once."), [])) ∧
      (∀ (s s' : CommunicateState) (texts texts' : List (List Nat)) (acts : List NetAction),
        s.streamWasCalled = false →
        streamCall s texts = (.ok s', acts) →
        s'.streamWasCalled = true ∧
          streamCall s' texts' =
            (.error (.genericError "stream can only be called once."), [])) := by
  constructor
  · intro s texts hs
    simp [streamCall, hs]
  · intro s s' texts texts' acts hs hcall
    rw [streamCall, if_neg (by simp [hs])] at hcall
    injection hcall with h1 h2
    injection h1 with h1
    subst h1
    exact ⟨rfl, by simp [streamCall]⟩

/-- Witness for `streamCall_single_use`: a fresh `Communicate` state accepts
the first call, and the second call on the resulting state fails with the
single-use error and an empty action list. -/
theorem streamCall_single_use_witness :
    (⟨[72], 0, 0, true⟩ : CommunicateState).streamWasCalled = true ∧
      streamCall (⟨[72], 0, 0, true⟩ : CommunicateState) [[72]] =
        (.error (.genericError "stream can only be called once."), []) :=
  streamCall_single_use.2 initialCommunicateState ⟨[72], 0, 0, true⟩ [[72]] [[72]]
    [NetAction.openConnection [72]] (by decide) (by rfl)

end EdgeTts
